import Mathlib

/-!
Verification of the connection-record decoder and aggregation engine of
`network_connections.py` (plus the output-shape contract checked by
`tests/validate.py`).

The Python program works on string-keyed dictionaries.  We embed a dictionary
as an insertion-ordered association list `List (String × Value)` where `Value`
covers the two value kinds the program stores (strings and non-negative
integers).  Python's `d[k] = v` updates the first binding in place when the key
exists and appends otherwise, which is exactly `setA` below; `d[k]` reads the
first binding (`lookupA`).
-/

set_option maxHeartbeats 1000000

/-- A Python value as used by this program: every field is either a string or
a non-negative integer (ports, converted by `int(_, 16)`, and counts). -/
inductive Value where
  | str : String → Value
  | num : Nat → Value

deriving DecidableEq

/-- A Python dict with string keys, as an insertion-ordered association list. -/
abbrev Dict := List (String × Value)

/-- First binding of a key (Python `d[k]` / `k in d`). -/
def lookupA {α : Type} : List (String × α) → String → Option α
  | [], _ => none
  | (k, v) :: rest, key => if k = key then some v else lookupA rest key

/-- Python `d[k] = v`: replace the first binding in place, else append. -/
def setA {α : Type} : List (String × α) → String → α → List (String × α)
  | [], k, v => [(k, v)]
  | (k', v') :: rest, k, v =>
    if k' = k then (k, v) :: rest else (k', v') :: setA rest k v

/-- `STATE_MAP` from the source: map from state enum number to string,
insertion order 1..13 (`len(STATE_MAP) = 13`). -/
def STATE_MAP : List (Nat × String) :=
  [(1, "ESTABLISHED"),
   (2, "SYN_SENT"),
   (3, "SYN_RECV"),
   (4, "FIN_WAIT1"),
   (5, "FIN_WAIT2"),
   (6, "TIME_WAIT"),
   (7, "CLOSE"),
   (8, "CLOSE_WAIT"),
   (9, "LAST_ACK"),
   (10, "LISTEN"),
   (11, "CLOSING"),
   (12, "UNKNOWN"),
   (13, "UNKNOWN")]

/-- First binding of a numeric key (Python `STATE_MAP[state_id]`). -/
def lookupN : List (Nat × String) → Nat → Option String
  | [], _ => none
  | (k, v) :: rest, key => if k = key then some v else lookupN rest key

/-- Value of a single hexadecimal digit (`[0-9A-Fa-f]`). -/
def hexDigitVal (c : Char) : Option Nat :=
  if c.isDigit then some (c.toNat - 48)
  else if 'a' ≤ c ∧ c ≤ 'f' then some (c.toNat - 87)
  else if 'A' ≤ c ∧ c ≤ 'F' then some (c.toNat - 55)
  else none

/-- Python `int(x, 16)` on the bare hexadecimal strings this program produces
with its regular expression (`int` additionally tolerates surrounding
whitespace, a sign, an `0x` prefix and underscore separators; every call site
in this program passes bare hex digits, so the strict form is modelled).
`none` models the `ValueError` raised on an empty or non-hex string. -/
def hexVal? (cs : List Char) : Option Nat :=
  match cs with
  | [] => none
  | _ => cs.foldlM (fun acc c => (hexDigitVal c).map (fun d => acc * 16 + d)) 0

/-- Python `str.lower()` on the ASCII text this program produces (hex
digits and colons; only `A`-`F` are affected). -/
def lowerChar (c : Char) : Char :=
  if 'A' ≤ c ∧ c ≤ 'Z' then Char.ofNat (c.toNat + 32) else c

/-- Lower-case a character list. -/
def pyLower (cs : List Char) : List Char := cs.map lowerChar

/-- Python slice `text[a:a+2]` on a character list. -/
def slice2 (cs : List Char) (a : Nat) : List Char :=
  (cs.drop a).take 2

/-- `hex_ip_to_decimal` from the source.  An 8-hex-digit field is rendered as
the four byte pairs at text offsets `[6:8]`, `[4:6]`, `[2:4]`, `[0:2]` in
decimal, joined with dots; a 32-hex-digit field is rearranged two characters
at a time exactly as the format string in the source does and lower-cased;
any other length raises (modelled as `.error`). -/
def hex_ip_to_decimal (text : String) : Except String String :=
  let cs := text.toList
  if cs.length = 8 then
    match hexVal? (slice2 cs 6), hexVal? (slice2 cs 4),
          hexVal? (slice2 cs 2), hexVal? (slice2 cs 0) with
    | some o1, some o2, some o3, some o4 =>
      .ok (toString o1 ++ "." ++ toString o2 ++ "." ++ toString o3 ++ "." ++ toString o4)
    | _, _, _, _ => .error "ValueError: invalid literal for int() with base 16"
  else if cs.length = 32 then
    .ok (String.mk (pyLower
      (slice2 cs 6 ++ slice2 cs 4 ++ ':' ::
       (slice2 cs 2 ++ slice2 cs 0 ++ ':' ::
        (slice2 cs 14 ++ slice2 cs 12 ++ ':' ::
         (slice2 cs 10 ++ slice2 cs 8 ++ ':' ::
          (slice2 cs 22 ++ slice2 cs 20 ++ ':' ::
           (slice2 cs 18 ++ slice2 cs 16 ++ ':' ::
            (slice2 cs 30 ++ slice2 cs 28 ++ ':' ::
             (slice2 cs 26 ++ slice2 cs 24))))))))))
  else .error ("Given value \"" ++ text ++ "\" does not look like an IP address!")

/-!
Spec-side renderings for claim C5, written from the specification's words and
deliberately structured differently from the source (chunking and reversing
byte-pair lists instead of indexing slices): "an 8-hex-digit field … decode by
reading the 4 byte-pairs in reverse order and rendering as dotted decimal";
"a 32-hex-digit field … decode each 4-byte word independently with the same
byte-reversal rule, then join the 8 resulting 16-bit groups with colons,
lower-cased".
-/

/-- Split a character list into consecutive byte pairs. -/
def bytePairs : List Char → List (List Char)
  | a :: b :: rest => [a, b] :: bytePairs rest
  | _ => []

/-- Split a character list into consecutive 8-character words. -/
def words8 : List Char → List (List Char)
  | a :: b :: c :: d :: e :: f :: g :: h :: rest => [a, b, c, d, e, f, g, h] :: words8 rest
  | _ => []

/-- Split a character list into consecutive 4-character groups. -/
def groups4 : List Char → List (List Char)
  | a :: b :: c :: d :: rest => [a, b, c, d] :: groups4 rest
  | _ => []

/-- Spec rendering of an IPv4 field: byte pairs read in reverse order become
octets 1..4, joined with dots in decimal. -/
def ipv4_render_spec (cs : List Char) : Option String :=
  match ((bytePairs cs).reverse).mapM hexVal? with
  | some [o1, o2, o3, o4] =>
    some (toString o1 ++ "." ++ toString o2 ++ "." ++ toString o3 ++ "." ++ toString o4)
  | _ => none

/-- Spec rendering of an IPv6 field: each 8-digit word is byte-reversed, the
resulting 16-bit (4-character) groups are joined with colons, lower-cased. -/
def ipv6_render_spec (cs : List Char) : String :=
  let revWords := (words8 cs).map (fun w => ((bytePairs w).reverse).flatten)
  let groups := (revWords.map groups4).flatten
  String.mk (pyLower (List.intercalate [':'] groups))

/-!
The packed-table line grammar of `parse_raw_connection_data`, embedded as a
deterministic left-to-right parser.  The anchored regular expression in the
source is a concatenation of token groups separated by `:` and `\s+`
delimiters; every token character class (`[0-9]`, `[0-9A-Fa-f]`) is disjoint
from both delimiter classes, so greedy maximal-munch matching with no
backtracking is equivalent to the regex engine's behaviour: whenever the
engine would backtrack into a shorter token, the following delimiter check
necessarily hits a token character and fails as well.  Likewise, for the
`{32}|{8}` and `{32}|{4}` alternations, when 32 hex digits are available the
shorter branch can never lead to an overall match (the character after the
shorter prefix is a hex digit, never the required `:` or whitespace), so
committing to the first branch that matches is equivalent.
-/

/-- `[0-9A-Fa-f]`. -/
def isHexChar (c : Char) : Bool :=
  c.isDigit || ('A' ≤ c && c ≤ 'F') || ('a' ≤ c && c ≤ 'f')

/-- Python `\s` on ASCII input: space, tab, newline, carriage return,
form feed, vertical tab. -/
def isWS (c : Char) : Bool :=
  c = ' ' || c = '\t' || c = '\n' || c = '\r' || c = '\x0b' || c = '\x0c'

/-- Greedy `+` over a character class; fails on an empty match. -/
def takeWhile1 (p : Char → Bool) (cs : List Char) : Option (List Char × List Char) :=
  match cs.takeWhile p with
  | [] => none
  | tk => some (tk, cs.drop tk.length)

/-- Exactly `n` characters of a class. -/
def takeExact (n : Nat) (p : Char → Bool) (cs : List Char) : Option (List Char × List Char) :=
  let tk := cs.take n
  if tk.length = n && tk.all p then some (tk, cs.drop n) else none

/-- A single literal character. -/
def takeChar (c : Char) : List Char → Option (List Char)
  | [] => none
  | c' :: rest => if c' = c then some rest else none

/-- `[0-9A-Fa-f]{32}|[0-9A-Fa-f]{8}` (address field). -/
def takeAddrField (cs : List Char) : Option (List Char × List Char) :=
  match takeExact 32 isHexChar cs with
  | some r => some r
  | none => takeExact 8 isHexChar cs

/-- `[0-9A-Fa-f]{32}|[0-9A-Fa-f]{4}` (port field). -/
def takePortField (cs : List Char) : Option (List Char × List Char) :=
  match takeExact 32 isHexChar cs with
  | some r => some r
  | none => takeExact 4 isHexChar cs

/-- The fourteen captured groups of the line grammar. -/
structure RawGroups where
  sl : List Char
  localAddress : List Char
  localPort : List Char
  remAddress : List Char
  remPort : List Char
  st : List Char
  txQueue : List Char
  rxQueue : List Char
  tr : List Char
  tmWhen : List Char
  retrnsmt : List Char
  uid : List Char
  timeout : List Char
  inode : List Char
  rest : List Char

deriving DecidableEq

/-- Match one packed-table line against the anchored grammar.  The trailing
`(.*)$` takes the remaining characters up to an optional final newline (`.`
does not match a newline and `$` also matches just before a trailing one). -/
def matchLine (cs0 : List Char) : Option RawGroups :=
  match takeWhile1 Char.isDigit cs0 with
  | none => none
  | some (sl, cs) =>
  match takeChar ':' cs with
  | none => none
  | some cs =>
  match takeWhile1 isWS cs with
  | none => none
  | some (_, cs) =>
  match takeAddrField cs with
  | none => none
  | some (la, cs) =>
  match takeChar ':' cs with
  | none => none
  | some cs =>
  match takePortField cs with
  | none => none
  | some (lp, cs) =>
  match takeWhile1 isWS cs with
  | none => none
  | some (_, cs) =>
  match takeAddrField cs with
  | none => none
  | some (ra, cs) =>
  match takeChar ':' cs with
  | none => none
  | some cs =>
  match takePortField cs with
  | none => none
  | some (rp, cs) =>
  match takeWhile1 isWS cs with
  | none => none
  | some (_, cs) =>
  match takeExact 2 isHexChar cs with
  | none => none
  | some (st, cs) =>
  match takeWhile1 isWS cs with
  | none => none
  | some (_, cs) =>
  match takeWhile1 isHexChar cs with
  | none => none
  | some (tx, cs) =>
  match takeChar ':' cs with
  | none => none
  | some cs =>
  match takeWhile1 isHexChar cs with
  | none => none
  | some (rx, cs) =>
  match takeWhile1 isWS cs with
  | none => none
  | some (_, cs) =>
  match takeWhile1 isHexChar cs with
  | none => none
  | some (tr, cs) =>
  match takeChar ':' cs with
  | none => none
  | some cs =>
  match takeWhile1 isHexChar cs with
  | none => none
  | some (tm, cs) =>
  match takeWhile1 isWS cs with
  | none => none
  | some (_, cs) =>
  match takeWhile1 isHexChar cs with
  | none => none
  | some (rt, cs) =>
  match takeWhile1 isWS cs with
  | none => none
  | some (_, cs) =>
  match takeWhile1 Char.isDigit cs with
  | none => none
  | some (uid, cs) =>
  match takeWhile1 isWS cs with
  | none => none
  | some (_, cs) =>
  match takeWhile1 Char.isDigit cs with
  | none => none
  | some (tout, cs) =>
  match takeWhile1 isWS cs with
  | none => none
  | some (_, cs) =>
  match takeWhile1 Char.isDigit cs with
  | none => none
  | some (inode, cs) =>
  match takeWhile1 isWS cs with
  | none => none
  | some (_, cs) =>
  let rest := cs.takeWhile (fun c => c ≠ '\n')
  let tail := cs.drop rest.length
  if tail = [] ∨ tail = ['\n'] then
    some { sl := sl, localAddress := la, localPort := lp, remAddress := ra,
           remPort := rp, st := st, txQueue := tx, rxQueue := rx, tr := tr,
           tmWhen := tm, retrnsmt := rt, uid := uid, timeout := tout,
           inode := inode, rest := rest }
  else none

/-- The entry dict built by `parse_line` from the captured groups, in the
source's key insertion order (the trailing group is captured but not stored,
exactly as in the source). -/
def groupsToDict (g : RawGroups) : Dict :=
  [("sl", .str (String.mk g.sl)),
   ("local_address", .str (String.mk g.localAddress)),
   ("local_port", .str (String.mk g.localPort)),
   ("rem_address", .str (String.mk g.remAddress)),
   ("rem_port", .str (String.mk g.remPort)),
   ("st", .str (String.mk g.st)),
   ("tx_queue", .str (String.mk g.txQueue)),
   ("rx_queue", .str (String.mk g.rxQueue)),
   ("tr", .str (String.mk g.tr)),
   ("tm->when", .str (String.mk g.tmWhen)),
   ("retrnsmt", .str (String.mk g.retrnsmt)),
   ("uid", .str (String.mk g.uid)),
   ("timeout", .str (String.mk g.timeout)),
   ("inode", .str (String.mk g.inode))]

/-- `parse_line` from the source: the raised exception carries the offending
line in its message. -/
def parse_line (line : String) : Except String Dict :=
  match matchLine line.toList with
  | some g => .ok (groupsToDict g)
  | none => .error ("Could not extract info from line:\n" ++ line)

/-- One of the four per-protocol loops of `parse_raw_connection_data`:
parse each line in order, add the protocol tag; the first parse failure
propagates (the exception aborts the whole call). -/
def parseProtoLines (lines : List String) (proto : String) : Except String (List Dict) :=
  match lines with
  | [] => .ok []
  | l :: rest =>
    match parse_line l with
    | .error err => .error err
    | .ok e =>
      match parseProtoLines rest proto with
      | .error err => .error err
      | .ok rest2 => .ok (setA e "proto" (.str proto) :: rest2)

/-- `parse_raw_connection_data` from the source: the four sequences are
processed in order tcp4, tcp6, udp4, udp6 and concatenated; any exception
aborts the whole call, so no (even partial) record list is produced. -/
def parse_raw_connection_data (tcp4 tcp6 udp4 udp6 : List String) :
    Except String (List Dict) :=
  match parseProtoLines tcp4 "tcp4" with
  | .error err => .error err
  | .ok c1 =>
  match parseProtoLines tcp6 "tcp6" with
  | .error err => .error err
  | .ok c2 =>
  match parseProtoLines udp4 "udp4" with
  | .error err => .error err
  | .ok c3 =>
  match parseProtoLines udp6 "udp6" with
  | .error err => .error err
  | .ok c4 => .ok (c1 ++ c2 ++ c3 ++ c4)

/-!
`post_process_connection_data`: per-entry conversion, remote-any filtering and
state decoding.  Python raises `KeyError` on a missing key, `TypeError` when
`len()` or `int(_, base)` receives a non-string, and `ValueError` on a
non-hex string; all are modelled as `.error` with a describing message.
-/

/-- Python `entry[k]` (raises `KeyError` when the key is absent). -/
def getKey (e : Dict) (k : String) : Except String Value :=
  match lookupA e k with
  | some v => .ok v
  | none => .error ("KeyError: " ++ k)

/-- `hex_ip_to_decimal(v)` on a dict value: `len(v)` requires a string. -/
def hexIpOfValue (v : Value) : Except String String :=
  match v with
  | .str s => hex_ip_to_decimal s
  | .num _ => .error "TypeError: object of type int has no len()"

/-- Python `int(v, 16)` on a dict value. -/
def toHexNat (v : Value) : Except String Nat :=
  match v with
  | .num _ => .error "TypeError: int() can't convert non-string with explicit base"
  | .str s =>
    match hexVal? s.toList with
    | some n => .ok n
    | none => .error ("ValueError: invalid literal for int() with base 16: " ++ s)

/-- The state-decoding step of `post_process_connection_data`:
`state = 'UNKNOWN'`, then `if state_id < len(STATE_MAP): state =
STATE_MAP[state_id]` — a `state_id` below 13 that is not a key of
`STATE_MAP` (that is, 0) raises `KeyError`. -/
def stateOfId (state_id : Nat) : Except String String :=
  if state_id < STATE_MAP.length then
    match lookupN STATE_MAP state_id with
    | some s => .ok s
    | none => .error ("KeyError: " ++ toString state_id)
  else .ok "UNKNOWN"

/-- The all-zero IPv6 "any" address literal from the source. -/
def zero6 : String := "0000:0000:0000:0000:0000:0000:0000:0000"

/-!
The body of the per-entry loop of `post_process_connection_data`
(`post_one` below): `entry = dict(e)` is a value copy (the heap model below
makes the copy explicit); then the four field conversions, the
remote-address drop checks and the state decoding, in source order.  `none`
is a dropped entry (`continue`).  The `rem_address` and `proto` reads of
the drop checks are hoisted before the two `if`s: both keys are necessarily
present at that point, because the conversion steps already read and wrote
`rem_address` and the first `if` of the source reads `proto`
unconditionally.
-/

/-- `entry[k] = hex_ip_to_decimal(entry[k])`. -/
def convAddr (e : Dict) (k : String) : Except String Dict :=
  match getKey e k with
  | .error err => .error err
  | .ok v =>
    match hexIpOfValue v with
    | .error err => .error err
    | .ok la => .ok (setA e k (.str la))

/-- `entry[k] = int(entry[k], 16)`. -/
def convPort (e : Dict) (k : String) : Except String Dict :=
  match getKey e k with
  | .error err => .error err
  | .ok v =>
    match toHexNat v with
    | .error err => .error err
    | .ok n => .ok (setA e k (.num n))

def post_one (e0 : Dict) : Except String (Option Dict) :=
  match convAddr e0 "local_address" with
  | .error err => .error err
  | .ok e1 =>
  match convPort e1 "local_port" with
  | .error err => .error err
  | .ok e2 =>
  match convAddr e2 "rem_address" with
  | .error err => .error err
  | .ok e3 =>
  match convPort e3 "rem_port" with
  | .error err => .error err
  | .ok e4 =>
  match getKey e4 "proto", getKey e4 "rem_address" with
  | .error err, _ => .error err
  | .ok _, .error err => .error err
  | .ok proto, .ok ra =>
  if (proto = Value.str "tcp4" ∨ proto = Value.str "udp4") ∧ ra = Value.str "0.0.0.0" then
    .ok none
  else if (proto = Value.str "tcp6" ∨ proto = Value.str "udp6") ∧ ra = Value.str zero6 then
    .ok none
  else
    match getKey e4 "st" with
    | .error err => .error err
    | .ok sv =>
    match toHexNat sv with
    | .error err => .error err
    | .ok state_id =>
    match stateOfId state_id with
    | .error err => .error err
    | .ok state => .ok (some (setA e4 "st" (.str state)))

/-- `post_process_connection_data` from the source: process the entries in
order, keep the ones that are not dropped; an exception aborts the call. -/
def post_process_connection_data (connections : List Dict) : Except String (List Dict) :=
  match connections with
  | [] => .ok []
  | e :: rest =>
    match post_one e with
    | .error err => .error err
    | .ok r =>
      match post_process_connection_data rest with
      | .error err => .error err
      | .ok rest2 =>
        match r with
        | some d => .ok (d :: rest2)
        | none => .ok rest2

/-!
`count_connections`.  The source initialises the matrix by the comprehension
`{proto: {} for proto in supported_protocols}` followed by nested loops that
assign `statistics[proto][state] = 0`.  Python iterates `supported_protocols`
and `supported_states` — both built as `set`s — in an order that depends on
the per-process string hashing; we therefore parametrise the construction by
the two enumeration orders (always permutations of the fixed element lists)
and instantiate a canonical order for `count_connections` itself.  Since the
protocol and state collections contain no duplicate elements, the
insertion-ordered result of the comprehension plus assignment loops is
exactly the map of maps `zeroFill` below.
-/

/-- The supported protocol set `{'tcp4', 'tcp6', 'udp4', 'udp6'}`. -/
def supported_protocols : List String := ["tcp4", "tcp6", "udp4", "udp6"]

/-- `set(STATE_MAP.values())`: the 12 distinct state names. -/
def supported_states : List String :=
  ["ESTABLISHED", "SYN_SENT", "SYN_RECV", "FIN_WAIT1", "FIN_WAIT2",
   "TIME_WAIT", "CLOSE", "CLOSE_WAIT", "LAST_ACK", "LISTEN", "CLOSING",
   "UNKNOWN"]

/-- The statistics matrix: protocol key → (state → count), insertion ordered. -/
abbrev Stats := List (String × List (String × Nat))

/-- The zero-initialised matrix over the given enumeration orders. -/
def zeroFill (pOrd sOrd : List String) : Stats :=
  pOrd.map (fun p => (p, sOrd.map (fun s => (s, 0))))

/-- Read `statistics[p][s]` as an `Option`. -/
def getA (stats : Stats) (p s : String) : Option Nat :=
  (lookupA stats p).bind (fun c => lookupA c s)

/-- Read `statistics[p][s]` directly; every such read in the source hits an
existing key (the matrix is dense over the supported sets). -/
def getCell (stats : Stats) (p s : String) : Nat :=
  (getA stats p s).getD 0

/-- `statistics[p][s] += 1` on an existing cell (the source would raise
`KeyError` otherwise; the membership checks before each increment and the
dense initialisation make that unreachable). -/
def incA : List (String × Nat) → String → List (String × Nat)
  | [], _ => []
  | (k, v) :: rest, s => if k = s then (k, v + 1) :: rest else (k, v) :: incA rest s

/-- Increment an outer/inner cell in place. -/
def statsInc : Stats → String → String → Stats
  | [], _, _ => []
  | (k, c) :: rest, p, s =>
    if k = p then (k, incA c s) :: rest else (k, c) :: statsInc rest p s

/-- `statistics[p][s] = n` (outer key present at every such write). -/
def statsSet (stats : Stats) (p s : String) (n : Nat) : Stats :=
  setA stats p (setA ((lookupA stats p).getD []) s n)

/-- What the counting loop does with one entry: `proto = entry['proto']` and
`state = entry['st']` (either read raises `KeyError` when absent), then the
two membership checks against the supported sets — a non-string value is
never a member — produce either a skip with the printed diagnostic or an
increment of the matching cell. -/
inductive RecAction where
  | skip : String → RecAction
  | tally : String → String → RecAction

deriving DecidableEq

/-- Python `str(v)` as used by the diagnostic f-strings. -/
def valueStr : Value → String
  | .str s => s
  | .num n => toString n

/-- Classify one entry exactly as the loop body of `count_connections` does. -/
def classify (e : Dict) : Except String RecAction :=
  match lookupA e "proto", lookupA e "st" with
  | none, _ => .error "KeyError: proto"
  | some _, none => .error "KeyError: st"
  | some (Value.str p), some (Value.str s) =>
    if p ∈ supported_protocols then
      if s ∈ supported_states then .ok (.tally p s)
      else .ok (.skip ("Unsupported connection state: " ++ s))
    else .ok (.skip ("Unsupported protocol: " ++ p))
  | some (Value.str p), some sv =>
    if p ∈ supported_protocols then
      .ok (.skip ("Unsupported connection state: " ++ valueStr sv))
    else .ok (.skip ("Unsupported protocol: " ++ p))
  | some pv, some _ => .ok (.skip ("Unsupported protocol: " ++ valueStr pv))

/-- The counting loop of `count_connections`, also collecting the stderr
diagnostics in order. -/
def countLoop : Stats → List String → List Dict → Except String (Stats × List String)
  | stats, diags, [] => .ok (stats, diags)
  | stats, diags, e :: rest =>
    match classify e with
    | .error err => .error err
    | .ok (.skip msg) => countLoop stats (diags ++ [msg]) rest
    | .ok (.tally p s) => countLoop (statsInc stats p s) diags rest

/-- The roll-up block of `count_connections`: `statistics['tcp'] = {}` (and
`udp`, `all`), then one loop over the supported states that assigns, per
state and in this order, `tcp = tcp4 + tcp6`, `udp = udp4 + udp6`,
`all = tcp + udp` (the `all` row reads the two cells just written). -/
def addDerived (sOrd : List String) (stats : Stats) : Stats :=
  let st1 := setA stats "tcp" []
  let st2 := setA st1 "udp" []
  let st3 := setA st2 "all" []
  sOrd.foldl (fun st s =>
    let stT := statsSet st "tcp" s (getCell st "tcp4" s + getCell st "tcp6" s)
    let stU := statsSet stT "udp" s (getCell stT "udp4" s + getCell stT "udp6" s)
    statsSet stU "all" s (getCell stU "tcp" s + getCell stU "udp" s)) st3

/-- `count_connections`, parametrised by the set-enumeration orders: the
head-record key check (`'st'`/`'proto' in connections[0]`, in that order),
the counting loop from the zero matrix, then the roll-up keys. -/
def count_connections_with (pOrd sOrd : List String) (connections : List Dict) :
    Except String (Stats × List String) :=
  match connections with
  | [] =>
    match countLoop (zeroFill pOrd sOrd) [] connections with
    | .error err => .error err
    | .ok (stats, diags) => .ok (addDerived sOrd stats, diags)
  | e :: _ =>
    if lookupA e "st" = none then
      .error "Could not find state entry \"st\" in connection entry"
    else if lookupA e "proto" = none then
      .error "Could not find protocol entry \"proto\" in connection entry"
    else
      match countLoop (zeroFill pOrd sOrd) [] connections with
      | .error err => .error err
      | .ok (stats, diags) => .ok (addDerived sOrd stats, diags)

/-- `count_connections` with the canonical enumeration orders. -/
def count_connections (connections : List Dict) : Except String (Stats × List String) :=
  count_connections_with supported_protocols supported_states connections

/-!
A heap model of `post_process_connection_data` for the frame claim: Python
dicts are mutable objects, so to state that the function copies and never
mutates its input we make the object store explicit.  A store is a list of
dict objects; a reference is an index.  `entry = dict(e)` allocates a fresh
copy at the end of the store; every subsequent `entry[k] = v` mutates only
that fresh cell.  The input is a list of references into the store.
-/

/-- The object store. -/
abbrev Store := List Dict

/-- Dereference (every reference handed to the function is valid; the
default is never reached under the validity precondition). -/
def heapRead (store : Store) (r : Nat) : Dict :=
  (store.get? r).getD []

/-- Overwrite the object at a reference. -/
def heapWrite (store : Store) (r : Nat) (d : Dict) : Store :=
  store.set r d

/-- `entry[k] = f(entry[k])`: read the key (KeyError when absent), convert,
write back into the same object. -/
def mutConv (store : Store) (r : Nat) (k : String)
    (f : Value → Except String Value) : Except String Store :=
  match getKey (heapRead store r) k with
  | .error err => .error err
  | .ok v =>
    match f v with
    | .error err => .error err
    | .ok v2 => .ok (heapWrite store r (setA (heapRead store r) k v2))

/-- The loop body of `post_process_connection_data` on the heap:
`entry = dict(e)` allocates a copy of the referenced dict, the four
conversions mutate the copy in place, the drop checks and state decoding
read it; the returned reference (if the entry is kept) is the fresh cell. -/
def post_one_heap (store : Store) (r : Nat) : Except String (Store × Option Nat) :=
  match mutConv (store ++ [heapRead store r]) store.length "local_address"
      (fun v => (hexIpOfValue v).map .str) with
  | .error err => .error err
  | .ok st1 =>
  match mutConv st1 store.length "local_port" (fun v => (toHexNat v).map .num) with
  | .error err => .error err
  | .ok st2 =>
  match mutConv st2 store.length "rem_address" (fun v => (hexIpOfValue v).map .str) with
  | .error err => .error err
  | .ok st3 =>
  match mutConv st3 store.length "rem_port" (fun v => (toHexNat v).map .num) with
  | .error err => .error err
  | .ok st4 =>
  match getKey (heapRead st4 store.length) "proto",
        getKey (heapRead st4 store.length) "rem_address" with
  | .error err, _ => .error err
  | .ok _, .error err => .error err
  | .ok proto, .ok ra =>
  if (proto = Value.str "tcp4" ∨ proto = Value.str "udp4") ∧ ra = Value.str "0.0.0.0" then
    .ok (st4, none)
  else if (proto = Value.str "tcp6" ∨ proto = Value.str "udp6") ∧ ra = Value.str zero6 then
    .ok (st4, none)
  else
    match getKey (heapRead st4 store.length) "st" with
    | .error err => .error err
    | .ok sv =>
    match toHexNat sv with
    | .error err => .error err
    | .ok state_id =>
    match stateOfId state_id with
    | .error err => .error err
    | .ok state =>
      .ok (heapWrite st4 store.length (setA (heapRead st4 store.length) "st" (.str state)),
           some store.length)

/-- `post_process_connection_data` on the heap: process the referenced
entries in order, collect the references of the kept copies. -/
def post_process_heap : Store → List Nat → Except String (Store × List Nat)
  | store, [] => .ok (store, [])
  | store, r :: rest =>
    match post_one_heap store r with
    | .error err => .error err
    | .ok (store1, o) =>
      match post_process_heap store1 rest with
      | .error err => .error err
      | .ok (store2, outs) =>
        match o with
        | some n => .ok (store2, n :: outs)
        | none => .ok (store2, outs)

/-!
Concrete fixtures used by the per-claim theorems and witnesses.
-/

/-- A parsed tcp4 record (the exact output of `parse_line` on a valid line
with local `0100007F:0050`, remote `0100007F:01BB` and the given state code,
plus the protocol tag). -/
def testRecord (st0 : String) : Dict :=
  [("sl", .str "0"), ("local_address", .str "0100007F"), ("local_port", .str "0050"),
   ("rem_address", .str "0100007F"), ("rem_port", .str "01BB"), ("st", .str st0),
   ("tx_queue", .str "00000000"), ("rx_queue", .str "00000000"), ("tr", .str "00"),
   ("tm->when", .str "00000000"), ("retrnsmt", .str "00000000"), ("uid", .str "0"),
   ("timeout", .str "0"), ("inode", .str "12345"), ("proto", .str "tcp4")]

/-- The post-processed form of `testRecord`: addresses decoded, ports in
decimal, the given state name. -/
def testOutput (state : String) : Dict :=
  [("sl", .str "0"), ("local_address", .str "127.0.0.1"), ("local_port", .num 80),
   ("rem_address", .str "127.0.0.1"), ("rem_port", .num 443), ("st", .str state),
   ("tx_queue", .str "00000000"), ("rx_queue", .str "00000000"), ("tr", .str "00"),
   ("tm->when", .str "00000000"), ("retrnsmt", .str "00000000"), ("uid", .str "0"),
   ("timeout", .str "0"), ("inode", .str "12345"), ("proto", .str "tcp4")]

/-- The packed tcp4 line of the end-to-end example: local `0100007F:0050`,
remote `0100007F:01BB`, state `01`. -/
def exampleLine : String :=
  "0: 0100007F:0050 0100007F:01BB 01 00000000:00000000 00:00000000 00000000 0 0 12345 1"

/-- A grammatically valid tcp4 line whose remote address field has 32 hex
digits, all zero: its decoded remote address is the all-zero IPv6 form. -/
def crossFamilyLine : String :=
  "0: 0100007F:0050 00000000000000000000000000000000:0000 01 00000000:00000000 00:00000000 00000000 0 0 12345 1"

/-- The record `crossFamilyLine` parses to. -/
def crossFamilyRecord : Dict :=
  [("sl", .str "0"), ("local_address", .str "0100007F"), ("local_port", .str "0050"),
   ("rem_address", .str "00000000000000000000000000000000"), ("rem_port", .str "0000"),
   ("st", .str "01"),
   ("tx_queue", .str "00000000"), ("rx_queue", .str "00000000"), ("tr", .str "00"),
   ("tm->when", .str "00000000"), ("retrnsmt", .str "00000000"), ("uid", .str "0"),
   ("timeout", .str "0"), ("inode", .str "12345"), ("proto", .str "tcp4")]

/-- The post-processed form of `crossFamilyRecord`: the remote address is the
all-zero IPv6 form, yet the record is kept because the `tcp4` branch of the
drop check only compares against `0.0.0.0`. -/
def crossFamilyOutput : Dict :=
  [("sl", .str "0"), ("local_address", .str "127.0.0.1"), ("local_port", .num 80),
   ("rem_address", .str zero6), ("rem_port", .num 0), ("st", .str "ESTABLISHED"),
   ("tx_queue", .str "00000000"), ("rx_queue", .str "00000000"), ("tr", .str "00"),
   ("tm->when", .str "00000000"), ("retrnsmt", .str "00000000"), ("uid", .str "0"),
   ("timeout", .str "0"), ("inode", .str "12345"), ("proto", .str "tcp4")]

/-!
Counting-loop lemmas.
-/

/-- Does the loop count this entry into cell `(p, s)`? -/
def isTally (p s : String) (e : Dict) : Bool :=
  match classify e with
  | .ok (.tally pp ss) => pp = p && ss = s
  | _ => false

/-- Number of entries counted into cell `(p, s)`. -/
def tallies (conns : List Dict) (p s : String) : Nat :=
  (conns.filter (isTally p s)).length

/-- The diagnostic an entry produces, if it is skipped. -/
def skipMsg (e : Dict) : Option String :=
  match classify e with
  | .ok (.skip m) => some m
  | _ => none

/-- All diagnostics of a record list, in order. -/
def skipMsgs (conns : List Dict) : List String :=
  conns.filterMap skipMsg

/-- Outer and inner key lists of the matrix (its shape). -/
def keyShape (stats : Stats) : List (String × List String) :=
  stats.map (fun pc => (pc.1, pc.2.map Prod.fst))

/-- The inner roll-up rows are built by repeated assignment over the state
enumeration order. -/
def buildAcc (ss : List String) (f : String → Nat) : List (String × Nat) :=
  ss.foldl (fun acc s => setA acc s (f s)) []

/-!
Structural characterisation of the roll-up block.
-/

/-- The first assignment of the roll-up loop body
(`statistics['tcp'][state] = statistics['tcp4'][state] + statistics['tcp6'][state]`). -/
def derivStepT (st2 : Stats) (s : String) : Stats :=
  statsSet st2 "tcp" s (getCell st2 "tcp4" s + getCell st2 "tcp6" s)

/-- The second assignment (`udp = udp4 + udp6`). -/
def derivStepU (st2 : Stats) (s : String) : Stats :=
  statsSet st2 "udp" s (getCell st2 "udp4" s + getCell st2 "udp6" s)

/-- The third assignment (`all = tcp + udp`, reading the rows just written). -/
def derivStepA (st2 : Stats) (s : String) : Stats :=
  statsSet st2 "all" s (getCell st2 "tcp" s + getCell st2 "udp" s)

/-- One iteration of the roll-up loop of `addDerived`: the three assignments
in source order, each reading the statistics as left by the previous one. -/
def derivStep (st2 : Stats) (s : String) : Stats :=
  derivStepA (derivStepU (derivStepT st2 s) s) s

/-- Value written into the `tcp` roll-up row for a state. -/
def rollT (st : Stats) (s : String) : Nat := getCell st "tcp4" s + getCell st "tcp6" s

/-- Value written into the `udp` roll-up row for a state. -/
def rollU (st : Stats) (s : String) : Nat := getCell st "udp4" s + getCell st "udp6" s

/-- Value written into the `all` roll-up row for a state. -/
def rollA (st : Stats) (s : String) : Nat := rollT st s + rollU st s

/-!
Master characterisation of `count_connections_with`.
-/

/-- The cell value the aggregator produces, as a function of the records
alone (independent of the set-enumeration orders). -/
def cellValue (conns : List Dict) (p s : String) : Option Nat :=
  if s ∈ supported_states then
    if p ∈ supported_protocols then some (tallies conns p s)
    else if p = "tcp" then some (tallies conns "tcp4" s + tallies conns "tcp6" s)
    else if p = "udp" then some (tallies conns "udp4" s + tallies conns "udp6" s)
    else if p = "all" then
      some ((tallies conns "tcp4" s + tallies conns "tcp6" s) +
            (tallies conns "udp4" s + tallies conns "udp6" s))
    else none
  else none

deriving instance DecidableEq for Except

/-- Read one cell of an aggregator result (`none` when the run failed or
the cell is absent). -/
def cellOf (r : Except String (Stats × List String)) (p s : String) : Option Nat :=
  match r with
  | .ok (stats, _) => getA stats p s
  | .error _ => none

/-- Is an `Except` a success? -/
def isOkE {ε α : Type} : Except ε α → Bool
  | .ok _ => true
  | .error _ => false

/-- The message of the exception `parse_line` raises, carrying the
offending line. -/
def lineErrMsg (line : String) : String :=
  "Could not extract info from line:\n" ++ line

/-!
Theorems.
-/

/-!
Association-list lemmas.
-/

theorem lookupA_setA {α : Type} (l : List (String × α)) (k x : String) (v : α) :
    lookupA (setA l k v) x = if x = k then some v else lookupA l x := by
  induction l with
  | nil =>
    by_cases h : x = k
    · simp [setA, lookupA, h]
    · have h2 : ¬ k = x := fun hh => h hh.symm
      simp [setA, lookupA, h, h2]
  | cons kv rest ih =>
    obtain ⟨k', v'⟩ := kv
    simp only [setA]
    by_cases hk : k' = k
    · rw [if_pos hk]
      by_cases hx : x = k
      · subst hx
        simp [lookupA]
      · have h2 : ¬ k = x := fun hh => hx hh.symm
        have h3 : ¬ k' = x := fun hh => hx (hk ▸ hh).symm
        simp only [lookupA, if_neg h2, if_neg h3, if_neg hx]
    · rw [if_neg hk]
      by_cases hx : k' = x
      · have h2 : ¬ x = k := fun hh => hk (hx.trans hh)
        simp [lookupA, hx, h2]
      · simp [lookupA, hx, ih]

theorem lookupA_eq_none_iff {α : Type} (l : List (String × α)) (k : String) :
    lookupA l k = none ↔ k ∉ l.map Prod.fst := by
  induction l with
  | nil => simp [lookupA]
  | cons kv rest ih =>
    obtain ⟨k', v'⟩ := kv
    simp only [lookupA, List.map_cons, List.mem_cons]
    by_cases h : k' = k
    · subst h
      simp
    · simp only [if_neg h, ih]
      constructor
      · intro hn hc
        rcases hc with hc | hc
        · exact h hc.symm
        · exact hn hc
      · intro hn
        intro hc
        exact hn (Or.inr hc)

theorem setA_eq_append {α : Type} (l : List (String × α)) (k : String) (v : α)
    (h : lookupA l k = none) : setA l k v = l ++ [(k, v)] := by
  induction l with
  | nil => simp [setA]
  | cons kv rest ih =>
    obtain ⟨k', v'⟩ := kv
    simp only [lookupA] at h
    by_cases hk : k' = k
    · simp [hk] at h
    · simp only [setA, if_neg hk, List.cons_append, List.cons.injEq, true_and]
      exact ih (by simpa [hk] using h)

theorem lookupA_append {α : Type} (l1 l2 : List (String × α)) (k : String) :
    lookupA (l1 ++ l2) k =
      match lookupA l1 k with
      | some v => some v
      | none => lookupA l2 k := by
  induction l1 with
  | nil => simp [lookupA]
  | cons kv rest ih =>
    obtain ⟨k', v'⟩ := kv
    simp only [List.cons_append, lookupA]
    by_cases h : k' = k
    · simp [h]
    · simp [h, ih]

theorem setA_append_left {α : Type} (l1 l2 : List (String × α)) (k : String) (v : α)
    (h : lookupA l1 k = none) : setA (l1 ++ l2) k v = l1 ++ setA l2 k v := by
  induction l1 with
  | nil => simp
  | cons kv rest ih =>
    obtain ⟨k', v'⟩ := kv
    simp only [lookupA] at h
    by_cases hk : k' = k
    · simp [hk] at h
    · simp only [List.cons_append, setA, if_neg hk, List.cons.injEq, true_and]
      exact ih (by simpa [hk] using h)

theorem keys_setA {α : Type} (l : List (String × α)) (k : String) (v : α) :
    (setA l k v).map Prod.fst =
      if k ∈ l.map Prod.fst then l.map Prod.fst else l.map Prod.fst ++ [k] := by
  induction l with
  | nil => simp [setA]
  | cons kv rest ih =>
    obtain ⟨k', v'⟩ := kv
    simp only [setA, List.map_cons, List.mem_cons]
    by_cases hk : k' = k
    · subst hk
      simp
    · have h2 : ¬ k = k' := fun hh => hk hh.symm
      simp only [if_neg hk, List.map_cons, ih]
      by_cases hm : k ∈ rest.map Prod.fst
      · simp [hm, h2]
      · simp [hm, h2]

theorem mem_setA {α : Type} (l : List (String × α)) (k : String) (v : α)
    (kv : String × α) (h : kv ∈ setA l k v) : kv = (k, v) ∨ kv ∈ l := by
  induction l with
  | nil =>
    simp only [setA, List.mem_singleton] at h
    exact Or.inl h
  | cons kv' rest ih =>
    obtain ⟨k', v'⟩ := kv'
    simp only [setA] at h
    by_cases hk : k' = k
    · simp only [if_pos hk, List.mem_cons] at h
      rcases h with h | h
      · exact Or.inl h
      · exact Or.inr (List.mem_cons_of_mem _ h)
    · simp only [if_neg hk, List.mem_cons] at h
      rcases h with h | h
      · exact Or.inr (by simp [h])
      · rcases ih h with h' | h'
        · exact Or.inl h'
        · exact Or.inr (List.mem_cons_of_mem _ h')

theorem lookupA_incA (c : List (String × Nat)) (s x : String) :
    lookupA (incA c s) x =
      if x = s then (lookupA c s).map (· + 1) else lookupA c x := by
  induction c with
  | nil =>
    by_cases h : x = s <;> simp [incA, lookupA, h]
  | cons kv rest ih =>
    obtain ⟨k, v⟩ := kv
    simp only [incA]
    by_cases hk : k = s
    · subst hk
      by_cases hx : x = k
      · subst hx
        simp [lookupA]
      · have h2 : ¬ k = x := fun hh => hx hh.symm
        simp [lookupA, hx, h2]
    · by_cases hx : k = x
      · subst hx
        simp [lookupA, hk]
      · simp [lookupA, hk, hx, ih]

theorem keys_incA (c : List (String × Nat)) (s : String) :
    (incA c s).map Prod.fst = c.map Prod.fst := by
  induction c with
  | nil => simp [incA]
  | cons kv rest ih =>
    obtain ⟨k, v⟩ := kv
    simp only [incA]
    by_cases hk : k = s
    · simp [hk]
    · simp [hk, ih]

theorem lookupA_statsInc (stats : Stats) (p s x : String) :
    lookupA (statsInc stats p s) x =
      if x = p then (lookupA stats p).map (fun c => incA c s) else lookupA stats x := by
  induction stats with
  | nil =>
    by_cases h : x = p <;> simp [statsInc, lookupA, h]
  | cons kv rest ih =>
    obtain ⟨k, c⟩ := kv
    simp only [statsInc]
    by_cases hk : k = p
    · subst hk
      by_cases hx : x = k
      · subst hx
        simp [lookupA]
      · have h2 : ¬ k = x := fun hh => hx hh.symm
        simp [lookupA, hx, h2]
    · by_cases hx : k = x
      · subst hx
        simp [lookupA, hk]
      · simp [lookupA, hk, hx, ih]

theorem getA_statsInc (stats : Stats) (p s x y : String) :
    getA (statsInc stats p s) x y =
      if x = p ∧ y = s then (getA stats p s).map (· + 1) else getA stats x y := by
  unfold getA
  rw [lookupA_statsInc]
  by_cases hx : x = p
  · subst hx
    cases hc : lookupA stats x with
    | none => by_cases hy : y = s <;> simp [hy]
    | some c => by_cases hy : y = s <;> simp [hy, lookupA_incA]
  · have h2 : ¬ (x = p ∧ y = s) := fun hh => hx hh.1
    simp [hx, h2]

theorem keyShape_statsInc (stats : Stats) (p s : String) :
    keyShape (statsInc stats p s) = keyShape stats := by
  induction stats with
  | nil => simp [statsInc]
  | cons kv rest ih =>
    obtain ⟨k, c⟩ := kv
    simp only [statsInc]
    by_cases hk : k = p
    · simp [hk, keyShape, keys_incA]
    · simpa [hk, keyShape] using ih

theorem countLoop_keyShape (conns : List Dict) :
    ∀ stats diags stats' diags',
      countLoop stats diags conns = .ok (stats', diags') →
      keyShape stats' = keyShape stats := by
  induction conns with
  | nil =>
    intro stats diags stats' diags' h
    simp only [countLoop, Except.ok.injEq, Prod.mk.injEq] at h
    rw [← h.1]
  | cons e rest ih =>
    intro stats diags stats' diags' h
    simp only [countLoop] at h
    cases hc : classify e with
    | error err => rw [hc] at h; exact absurd h (by simp)
    | ok a =>
      rw [hc] at h
      cases a with
      | skip msg => exact ih _ _ _ _ h
      | tally p s => rw [ih _ _ _ _ h, keyShape_statsInc]

theorem countLoop_diags (conns : List Dict) :
    ∀ stats diags stats' diags',
      countLoop stats diags conns = .ok (stats', diags') →
      diags' = diags ++ skipMsgs conns := by
  induction conns with
  | nil =>
    intro stats diags stats' diags' h
    simp only [countLoop, Except.ok.injEq, Prod.mk.injEq] at h
    simp [h.2.symm, skipMsgs]
  | cons e rest ih =>
    intro stats diags stats' diags' h
    simp only [countLoop] at h
    cases hc : classify e with
    | error err => rw [hc] at h; exact absurd h (by simp)
    | ok a =>
      rw [hc] at h
      cases a with
      | skip msg =>
        rw [ih _ _ _ _ h]
        simp [skipMsgs, skipMsg, hc]
      | tally p s =>
        rw [ih _ _ _ _ h]
        simp [skipMsgs, skipMsg, hc]

theorem countLoop_getA (conns : List Dict) :
    ∀ stats diags stats' diags',
      countLoop stats diags conns = .ok (stats', diags') →
      ∀ p s, getA stats' p s = (getA stats p s).map (· + tallies conns p s) := by
  induction conns with
  | nil =>
    intro stats diags stats' diags' h p s
    simp only [countLoop, Except.ok.injEq, Prod.mk.injEq] at h
    rw [← h.1]
    cases getA stats p s <;> simp [tallies]
  | cons e rest ih =>
    intro stats diags stats' diags' h p s
    simp only [countLoop] at h
    cases hc : classify e with
    | error err => rw [hc] at h; exact absurd h (by simp)
    | ok a =>
      rw [hc] at h
      cases a with
      | skip msg =>
        have ht : isTally p s e = false := by simp [isTally, hc]
        rw [ih _ _ _ _ h p s]
        simp [tallies, List.filter_cons, ht]
      | tally p0 s0 =>
        have := ih _ _ _ _ h p s
        rw [this, getA_statsInc]
        by_cases hps : p = p0 ∧ s = s0
        · obtain ⟨hp, hs⟩ := hps
          subst hp; subst hs
          have ht : isTally p s e = true := by simp [isTally, hc]
          rw [if_pos ⟨rfl, rfl⟩]
          cases hg : getA stats p s with
          | none => simp [tallies]
          | some v =>
            simp [tallies, List.filter_cons, ht]
            try omega
        · have ht : isTally p s e = false := by
            simp only [isTally, hc]
            rcases not_and_or.mp hps with hp | hs
            · have : ¬ p0 = p := fun hh => hp hh.symm
              simp [this]
            · have : ¬ s0 = s := fun hh => hs hh.symm
              simp [this]
          rw [if_neg hps]
          simp [tallies, List.filter_cons, ht]

theorem countLoop_classify_ok (conns : List Dict) :
    ∀ stats diags r, countLoop stats diags conns = .ok r →
      ∀ e ∈ conns, ∃ a, classify e = .ok a := by
  induction conns with
  | nil => intro stats diags r _ e he; exact absurd he (by simp)
  | cons e0 rest ih =>
    intro stats diags r h e he
    simp only [countLoop] at h
    cases hc : classify e0 with
    | error err => rw [hc] at h; exact absurd h (by simp)
    | ok a =>
      rw [hc] at h
      rcases List.mem_cons.mp he with he | he
      · subst he; exact ⟨a, hc⟩
      · cases a with
        | skip msg => exact ih _ _ _ h e he
        | tally p s => exact ih _ _ _ h e he

theorem countLoop_ok_of_classify (conns : List Dict) :
    ∀ stats diags, (∀ e ∈ conns, ∃ a, classify e = .ok a) →
      ∃ r, countLoop stats diags conns = .ok r := by
  induction conns with
  | nil => intro stats diags _; exact ⟨(stats, diags), rfl⟩
  | cons e rest ih =>
    intro stats diags hall
    obtain ⟨a, ha⟩ := hall e (by simp)
    have hrest : ∀ e' ∈ rest, ∃ a', classify e' = .ok a' :=
      fun e' he' => hall e' (List.mem_cons_of_mem _ he')
    cases a with
    | skip msg =>
      obtain ⟨r, hr⟩ := ih (stats) (diags ++ [msg]) hrest
      exact ⟨r, by simp [countLoop, ha, hr]⟩
    | tally p s =>
      obtain ⟨r, hr⟩ := ih (statsInc stats p s) diags hrest
      exact ⟨r, by simp [countLoop, ha, hr]⟩

/-!
Zero-matrix and roll-up lemmas.
-/

theorem lookupA_constMap (sOrd : List String) (x : String) :
    lookupA (sOrd.map (fun s => (s, (0 : Nat)))) x =
      if x ∈ sOrd then some 0 else none := by
  induction sOrd with
  | nil => simp [lookupA]
  | cons s rest ih =>
    simp only [List.map_cons, lookupA]
    by_cases h : s = x
    · simp [h]
    · have h2 : ¬ x = s := fun hh => h hh.symm
      simp [h, h2, ih]

theorem lookupA_zeroFill (pOrd sOrd : List String) (p : String) :
    lookupA (zeroFill pOrd sOrd) p =
      if p ∈ pOrd then some (sOrd.map (fun s => (s, 0))) else none := by
  induction pOrd with
  | nil => simp [zeroFill, lookupA]
  | cons q rest ih
 =>
    simp only [zeroFill, List.map_cons, lookupA]
    by_cases h : q = p
    · simp [h]
    · have h2 : ¬ p = q := fun hh => h hh.symm
      simpa [h, h2, zeroFill] using ih

theorem getA_zeroFill (pOrd sOrd : List String) (p s : String) :
    getA (zeroFill pOrd sOrd) p s =
      if p ∈ pOrd then (if s ∈ sOrd then some 0 else none) else none := by
  unfold getA
  rw [lookupA_zeroFill]
  by_cases hp : p ∈ pOrd
  · simp [hp, lookupA_constMap]
  · simp [hp]

theorem keyShape_zeroFill (pOrd sOrd : List String) :
    keyShape (zeroFill pOrd sOrd) = pOrd.map (fun p => (p, sOrd)) := by
  unfold keyShape zeroFill
  rw [List.map_map]
  apply List.map_congr_left
  intro p _
  simp [Function.comp_def]

theorem lookupA_foldSet (f : String → Nat) (ss : List String) :
    ∀ (acc : List (String × Nat)) (x : String),
      lookupA (ss.foldl (fun acc s => setA acc s (f s)) acc) x =
      if x ∈ ss then some (f x) else lookupA acc x := by
  induction ss with
  | nil => intro acc x; simp
  | cons s rest ih =>
    intro acc x
    simp only [List.foldl_cons]
    rw [ih]
    by_cases hr : x ∈ rest
    · simp [hr]
    · rw [lookupA_setA]
      by_cases hx : x = s
      · simp [hx, hr]
      · have h2 : x ∉ s :: rest := by
          intro hc
          rcases List.mem_cons.mp hc with hc | hc
          · exact hx hc
          · exact hr hc
        simp [hr, hx, h2]

theorem lookupA_buildAcc (f : String → Nat) (ss : List String) (x : String) :
    lookupA (buildAcc ss f) x = if x ∈ ss then some (f x) else none := by
  unfold buildAcc
  rw [lookupA_foldSet]
  simp [lookupA]

theorem keys_foldSet (f : String → Nat) (ss : List String) :
    ∀ (acc : List (String × Nat)), ss.Nodup →
      (∀ s ∈ ss, s ∉ acc.map Prod.fst) →
      (ss.foldl (fun acc s => setA acc s (f s)) acc).map Prod.fst =
        acc.map Prod.fst ++ ss := by
  induction ss with
  | nil => intro acc _ _; simp
  | cons s rest ih =>
    intro acc hnd hdisj
    simp only [List.foldl_cons]
    have hs : s ∉ acc.map Prod.fst := hdisj s (by simp)
    have hkeys : (setA acc s (f s)).map Prod.fst = acc.map Prod.fst ++ [s] := by
      rw [keys_setA, if_neg hs]
    have hnd' : rest.Nodup := (List.nodup_cons.mp hnd).2
    have hsrest : s ∉ rest := (List.nodup_cons.mp hnd).1
    have hdisj' : ∀ t ∈ rest, t ∉ (setA acc s (f s)).map Prod.fst := by
      intro t ht
      rw [hkeys]
      intro hc
      rcases List.mem_append.mp hc with hc | hc
      · exact hdisj t (List.mem_cons_of_mem _ ht) hc
      · rcases List.mem_singleton.mp hc with rfl
        exact hsrest ht
    rw [ih _ hnd' hdisj', hkeys]
    simp

theorem keys_buildAcc (f : String → Nat) (ss : List String) (hnd : ss.Nodup) :
    (buildAcc ss f).map Prod.fst = ss := by
  unfold buildAcc
  rw [keys_foldSet f ss [] hnd (by simp)]
  simp

theorem values_foldSet (f : String → Nat) (ss : List String) :
    ∀ (acc : List (String × Nat)), (∀ kv ∈ acc, kv.2 = f kv.1) →
      ∀ kv ∈ ss.foldl (fun acc s => setA acc s (f s)) acc, kv.2 = f kv.1 := by
  induction ss with
  | nil => intro acc hacc kv hkv; exact hacc kv hkv
  | cons s rest ih =>
    intro acc hacc kv hkv
    simp only [List.foldl_cons] at hkv
    refine ih _ ?_ kv hkv
    intro kv' hkv'
    rcases mem_setA _ _ _ _ hkv' with h | h
    · rw [h]
    · exact hacc kv' h

theorem values_buildAcc (f : String → Nat) (ss : List String) :
    ∀ kv ∈ buildAcc ss f, kv.2 = f kv.1 := by
  unfold buildAcc
  exact values_foldSet f ss [] (by simp)

theorem getCell_append_tail3 (st : Stats) (a b c : List (String × Nat)) (k s : String)
    (h1 : ¬ ("tcp" : String) = k) (h2 : ¬ ("udp" : String) = k)
    (h3 : ¬ ("all" : String) = k) :
    getCell (st ++ [("tcp", a), ("udp", b), ("all", c)]) k s = getCell st k s := by
  unfold getCell getA
  rw [lookupA_append]
  cases hl : lookupA st k with
  | some d => simp
  | none => simp [lookupA, h1, h2, h3]

theorem lookupA_tail3_tcp (st : Stats) (a b c : List (String × Nat))
    (h1 : lookupA st "tcp" = none) :
    lookupA (st ++ [("tcp", a), ("udp", b), ("all", c)]) "tcp" = some a := by
  rw [lookupA_append, h1]
  simp [lookupA]

theorem lookupA_tail3_udp (st : Stats) (a b c : List (String × Nat))
    (h2 : lookupA st "udp" = none) :
    lookupA (st ++ [("tcp", a), ("udp", b), ("all", c)]) "udp" = some b := by
  rw [lookupA_append, h2]
  simp [lookupA]

theorem lookupA_tail3_all (st : Stats) (a b c : List (String × Nat))
    (h3 : lookupA st "all" = none) :
    lookupA (st ++ [("tcp", a), ("udp", b), ("all", c)]) "all" = some c := by
  rw [lookupA_append, h3]
  simp [lookupA]

theorem derivStepT_eq (st : Stats) (a b c : List (String × Nat)) (s : String)
    (h1 : lookupA st "tcp" = none) :
    derivStepT (st ++ [("tcp", a), ("udp", b), ("all", c)]) s =
      st ++ [("tcp", setA a s (rollT st s)), ("udp", b), ("all", c)] := by
  unfold derivStepT statsSet
  rw [getCell_append_tail3 st a b c "tcp4" s (by decide) (by decide) (by decide),
      getCell_append_tail3 st a b c "tcp6" s (by decide) (by decide) (by decide),
      lookupA_tail3_tcp st a b c h1, setA_append_left _ _ _ _ h1]
  simp [setA, rollT]

theorem derivStepU_eq (st : Stats) (a b c : List (String × Nat)) (s : String)
    (h2 : lookupA st "udp" = none) :
    derivStepU (st ++ [("tcp", a), ("udp", b), ("all", c)]) s =
      st ++ [("tcp", a), ("udp", setA b s (rollU st s)), ("all", c)] := by
  unfold derivStepU statsSet
  rw [getCell_append_tail3 st a b c "udp4" s (by decide) (by decide) (by decide),
      getCell_append_tail3 st a b c "udp6" s (by decide) (by decide) (by decide),
      lookupA_tail3_udp st a b c h2, setA_append_left _ _ _ _ h2]
  simp [setA, rollU]

theorem derivStepA_eq (st : Stats) (a b c : List (String × Nat)) (s : String)
    (h1 : lookupA st "tcp" = none) (h2 : lookupA st "udp" = none)
    (h3 : lookupA st "all" = none) :
    derivStepA (st ++ [("tcp", a), ("udp", b), ("all", c)]) s =
      st ++ [("tcp", a), ("udp", b),
             ("all", setA c s ((lookupA a s).getD 0 + (lookupA b s).getD 0))] := by
  unfold derivStepA statsSet
  have ht : getCell (st ++ [("tcp", a), ("udp", b), ("all", c)]) "tcp" s =
      (lookupA a s).getD 0 := by
    unfold getCell getA
    rw [lookupA_tail3_tcp st a b c h1]
    simp
  have hu : getCell (st ++ [("tcp", a), ("udp", b), ("all", c)]) "udp" s =
      (lookupA b s).getD 0 := by
    unfold getCell getA
    rw [lookupA_tail3_udp st a b c h2]
    simp
  rw [ht, hu, lookupA_tail3_all st a b c h3, setA_append_left _ _ _ _ h3]
  simp [setA]

theorem derivStep_eq (st : Stats) (a b c : List (String × Nat)) (s : String)
    (h1 : lookupA st "tcp" = none) (h2 : lookupA st "udp" = none)
    (h3 : lookupA st "all" = none) :
    derivStep (st ++ [("tcp", a), ("udp", b), ("all", c)]) s =
      st ++ [("tcp", setA a s (rollT st s)), ("udp", setA b s (rollU st s)),
             ("all", setA c s (rollA st s))] := by
  unfold derivStep
  rw [derivStepT_eq st a b c s h1, derivStepU_eq st _ b c s h2,
      derivStepA_eq st _ _ c s h1 h2 h3]
  rw [lookupA_setA, lookupA_setA]
  simp [rollA]

theorem derivFold (st : Stats) (h1 : lookupA st "tcp" = none)
    (h2 : lookupA st "udp" = none) (h3 : lookupA st "all" = none) :
    ∀ (ss : List String) (a b c : List (String × Nat)),
      ss.foldl derivStep (st ++ [("tcp", a), ("udp", b), ("all", c)]) =
        st ++ [("tcp", ss.foldl (fun x s => setA x s (rollT st s)) a),
               ("udp", ss.foldl (fun x s => setA x s (rollU st s)) b),
               ("all", ss.foldl (fun x s => setA x s (rollA st s)) c)] := by
  intro ss
  induction ss with
  | nil => intro a b c; simp
  | cons s rest ih =>
    intro a b c
    simp only [List.foldl_cons]
    rw [derivStep_eq st a b c s h1 h2 h3]
    exact ih _ _ _

theorem addDerived_eq (sOrd : List String) (st : Stats)
    (h1 : lookupA st "tcp" = none) (h2 : lookupA st "udp" = none)
    (h3 : lookupA st "all" = none) :
    addDerived sOrd st =
      st ++ [("tcp", buildAcc sOrd (rollT st)), ("udp", buildAcc sOrd (rollU st)),
             ("all", buildAcc sOrd (rollA st))] := by
  have hbase : setA (setA (setA st "tcp" []) "udp" []) "all" ([] : List (String × Nat)) =
      st ++ [("tcp", []), ("udp", []), ("all", [])] := by
    rw [setA_eq_append st "tcp" [] h1,
        setA_append_left st [("tcp", [])] "udp" [] h2]
    have : setA [("tcp", ([] : List (String × Nat)))] "udp" [] =
        [("tcp", []), ("udp", [])] := by simp [setA]
    rw [this, setA_append_left st [("tcp", []), ("udp", [])] "all" [] h3]
    have : setA [("tcp", ([] : List (String × Nat))), ("udp", [])] "all" [] =
        [("tcp", []), ("udp", []), ("all", [])] := by simp [setA]
    rw [this]
  show sOrd.foldl derivStep (setA (setA (setA st "tcp" []) "udp" []) "all" []) = _
  rw [hbase, derivFold st h1 h2 h3 sOrd [] [] []]
  rfl

theorem keyShape_fst (stats : Stats) :
    (keyShape stats).map Prod.fst = stats.map Prod.fst := by
  unfold keyShape
  rw [List.map_map]
  rfl

theorem inner_keys_of_keyShape (stats : Stats) (pOrd sOrd : List String)
    (h : keyShape stats = pOrd.map (fun p => (p, sOrd))) :
    ∀ pc ∈ stats, pc.2.map Prod.fst = sOrd := by
  intro pc hpc
  have hmem : (pc.1, pc.2.map Prod.fst) ∈ keyShape stats := by
    unfold keyShape
    exact List.mem_map_of_mem _ hpc
  rw [h] at hmem
  obtain ⟨p, _, hp⟩ := List.mem_map.mp hmem
  exact (Prod.mk.injEq _ _ _ _ ▸ hp).2.symm ▸ rfl

/-- Decomposition of a successful `count_connections_with` run: the counting
loop succeeds on the zero matrix and the result appends the three roll-up
rows. -/
theorem countWith_decomp (pOrd sOrd : List String) (conns : List Dict)
    (hp : pOrd.Perm supported_protocols)
    (stats : Stats) (diags : List String)
    (h : count_connections_with pOrd sOrd conns = .ok (stats, diags)) :
    ∃ base, countLoop (zeroFill pOrd sOrd) [] conns = .ok (base, diags) ∧
      base.map Prod.fst = pOrd ∧
      keyShape base = pOrd.map (fun p => (p, sOrd)) ∧
      lookupA base "tcp" = none ∧ lookupA base "udp" = none ∧
      lookupA base "all" = none ∧
      stats = base ++ [("tcp", buildAcc sOrd (rollT base)),
                       ("udp", buildAcc sOrd (rollU base)),
                       ("all", buildAcc sOrd (rollA base))] := by
  have hrun : ∃ base, countLoop (zeroFill pOrd sOrd) [] conns = .ok (base, diags) ∧
      stats = addDerived sOrd base := by
    cases conns with
    | nil =>
      simp only [count_connections_with, countLoop, Except.ok.injEq, Prod.mk.injEq] at h
      refine ⟨zeroFill pOrd sOrd, ?_, h.1.symm⟩
      simp [countLoop, h.2]
    | cons e rest =>
      simp only [count_connections_with] at h
      by_cases hst : lookupA e "st" = none
      · rw [if_pos hst] at h; exact absurd h (by simp)
      · rw [if_neg hst] at h
        by_cases hpr : lookupA e "proto" = none
        · rw [if_pos hpr] at h; exact absurd h (by simp)
        · rw [if_neg hpr] at h
          cases hl : countLoop (zeroFill pOrd sOrd) [] (e :: rest) with
          | error err => rw [hl] at h; exact absurd h (by simp)
          | ok r =>
            obtain ⟨base, diags0⟩ := r
            rw [hl] at h
            simp only [Except.ok.injEq, Prod.mk.injEq] at h
            refine ⟨base, ?_, h.1.symm⟩
            rw [h.2]
  obtain ⟨base, hloop, hstats⟩ := hrun
  have hshape : keyShape base = pOrd.map (fun p => (p, sOrd)) := by
    rw [countLoop_keyShape conns _ _ _ _ hloop, keyShape_zeroFill]
  have hfst : base.map Prod.fst = pOrd := by
    rw [← keyShape_fst, hshape, List.map_map]
    simp [Function.comp_def]
  have hnT : lookupA base "tcp" = none := by
    rw [lookupA_eq_none_iff, hfst]
    intro hc
    have := hp.mem_iff.mp hc
    simp [supported_protocols] at this
  have hnU : lookupA base "udp" = none := by
    rw [lookupA_eq_none_iff, hfst]
    intro hc
    have := hp.mem_iff.mp hc
    simp [supported_protocols] at this
  have hnA : lookupA base "all" = none := by
    rw [lookupA_eq_none_iff, hfst]
    intro hc
    have := hp.mem_iff.mp hc
    simp [supported_protocols] at this
  refine ⟨base, hloop, hfst, hshape, hnT, hnU, hnA, ?_⟩
  rw [hstats, addDerived_eq sOrd base hnT hnU hnA]

theorem countWith_getA (pOrd sOrd : List String) (conns : List Dict)
    (hp : pOrd.Perm supported_protocols) (hs : sOrd.Perm supported_states)
    (stats : Stats) (diags : List String)
    (h : count_connections_with pOrd sOrd conns = .ok (stats, diags)) :
    ∀ p s, getA stats p s = cellValue conns p s := by
  obtain ⟨base, hloop, hfst, hshape, hnT, hnU, hnA, hstats⟩ :=
    countWith_decomp pOrd sOrd conns hp stats diags h
  have hbase : ∀ p s, getA base p s =
      if p ∈ pOrd then (if s ∈ sOrd then some (tallies conns p s) else none)
      else none := by
    intro p s
    rw [countLoop_getA conns _ _ _ _ hloop p s, getA_zeroFill]
    by_cases hpp : p ∈ pOrd
    · by_cases hss : s ∈ sOrd
      · simp [hpp, hss]
      · simp [hpp, hss]
    · simp [hpp]
  have hcell : ∀ p s, p ∈ pOrd →
      getCell base p s = (if s ∈ sOrd then tallies conns p s else 0) := by
    intro p s hpp
    unfold getCell
    rw [hbase p s]
    by_cases hss : s ∈ sOrd <;> simp [hpp, hss]
  have h4 : ("tcp4" : String) ∈ pOrd := hp.mem_iff.mpr (by decide)
  have h6 : ("tcp6" : String) ∈ pOrd := hp.mem_iff.mpr (by decide)
  have hu4 : ("udp4" : String) ∈ pOrd := hp.mem_iff.mpr (by decide)
  have hu6 : ("udp6" : String) ∈ pOrd := hp.mem_iff.mpr (by decide)
  intro p s
  have hsmem : s ∈ sOrd ↔ s ∈ supported_states := hs.mem_iff
  rw [hstats]
  unfold getA
  rw [lookupA_append]
  by_cases hpp : p ∈ pOrd
  · have hpmem : p ∈ supported_protocols := hp.mem_iff.mp hpp
    have hnn : ¬ lookupA base p = none := by
      rw [lookupA_eq_none_iff, hfst]
      exact fun hc => hc hpp
    obtain ⟨row, hrow⟩ := Option.ne_none_iff_exists'.mp hnn
    rw [hrow]
    have hrw : (some row).bind (fun c => lookupA c s) = getA base p s := by
      unfold getA
      rw [hrow]
    rw [hrw, hbase p s]
    unfold cellValue
    by_cases hss : s ∈ sOrd
    · simp [hpp, hss, hsmem.mp hss, hpmem]
    · have hss2 : s ∉ supported_states := fun hc => hss (hsmem.mpr hc)
      simp [hpp, hss, hss2]
  · have hln : lookupA base p = none := by
      rw [lookupA_eq_none_iff, hfst]
      exact hpp
    have hpmem : p ∉ supported_protocols := fun hc => hpp (hp.mem_iff.mpr hc)
    rw [hln]
    by_cases ht : p = "tcp"
    · subst ht
      have : lookupA [("tcp", buildAcc sOrd (rollT base)),
          ("udp", buildAcc sOrd (rollU base)),
          ("all", buildAcc sOrd (rollA base))] "tcp" = some (buildAcc sOrd (rollT base)) := by
        simp [lookupA]
      rw [this]
      show lookupA (buildAcc sOrd (rollT base)) s = cellValue conns "tcp" s
      rw [lookupA_buildAcc]
      unfold cellValue rollT
      rw [hcell _ s h4, hcell _ s h6]
      by_cases hss : s ∈ sOrd
      · simp [hss, hsmem.mp hss, hpmem]
      · have hss2 : s ∉ supported_states := fun hc => hss (hsmem.mpr hc)
        simp [hss, hss2]
    · by_cases hu : p = "udp"
      · subst hu
        have : lookupA [("tcp", buildAcc sOrd (rollT base)),
            ("udp", buildAcc sOrd (rollU base)),
            ("all", buildAcc sOrd (rollA base))] "udp" = some (buildAcc sOrd (rollU base)) := by
          simp [lookupA]
        rw [this]
        show lookupA (buildAcc sOrd (rollU base)) s = cellValue conns "udp" s
        rw [lookupA_buildAcc]
        unfold cellValue rollU
        rw [hcell _ s hu4, hcell _ s hu6]
        by_cases hss : s ∈ sOrd
        · simp [hss, hsmem.mp hss, hpmem]
        · have hss2 : s ∉ supported_states := fun hc => hss (hsmem.mpr hc)
          simp [hss, hss2]
      · by_cases ha : p = "all"
        · subst ha
          have : lookupA [("tcp", buildAcc sOrd (rollT base)),
              ("udp", buildAcc sOrd (rollU base)),
              ("all", buildAcc sOrd (rollA base))] "all" = some (buildAcc sOrd (rollA base)) := by
            simp [lookupA]
          rw [this]
          show lookupA (buildAcc sOrd (rollA base)) s = cellValue conns "all" s
          rw [lookupA_buildAcc]
          unfold cellValue rollA rollT rollU
          rw [hcell _ s h4, hcell _ s h6, hcell _ s hu4, hcell _ s hu6]
          by_cases hss : s ∈ sOrd
          · simp [hss, hsmem.mp hss, hpmem]
          · have hss2 : s ∉ supported_states := fun hc => hss (hsmem.mpr hc)
            simp [hss, hss2]
        · have h1 : ¬ ("tcp" : String) = p := fun hh => ht hh.symm
          have h2 : ¬ ("udp" : String) = p := fun hh => hu hh.symm
          have h3 : ¬ ("all" : String) = p := fun hh => ha hh.symm
          have : lookupA [("tcp", buildAcc sOrd (rollT base)),
              ("udp", buildAcc sOrd (rollU base)),
              ("all", buildAcc sOrd (rollA base))] p = none := by
            simp [lookupA, h1, h2, h3]
          rw [this]
          unfold cellValue
          simp [hpmem, ht, hu, ha]

theorem countWith_diags (pOrd sOrd : List String) (conns : List Dict)
    (hp : pOrd.Perm supported_protocols)
    (stats : Stats) (diags : List String)
    (h : count_connections_with pOrd sOrd conns = .ok (stats, diags)) :
    diags = skipMsgs conns := by
  obtain ⟨base, hloop, -, -, -, -, -, -⟩ :=
    countWith_decomp pOrd sOrd conns hp stats diags h
  have := countLoop_diags conns _ _ _ _ hloop
  simpa using this

theorem countWith_keys (pOrd sOrd : List String) (conns : List Dict)
    (hp : pOrd.Perm supported_protocols) (hs : sOrd.Perm supported_states)
    (stats : Stats) (diags : List String)
    (h : count_connections_with pOrd sOrd conns = .ok (stats, diags)) :
    stats.map Prod.fst = pOrd ++ ["tcp", "udp", "all"] ∧
    ∀ pc ∈ stats, pc.2.map Prod.fst = sOrd := by
  obtain ⟨base, hloop, hfst, hshape, -, -, -, hstats⟩ :=
    countWith_decomp pOrd sOrd conns hp stats diags h
  have hnd : sOrd.Nodup := by
    rw [hs.nodup_iff]
    decide
  constructor
  · rw [hstats]
    simp [hfst]
  · intro pc hpc
    rw [hstats] at hpc
    rcases List.mem_append.mp hpc with hin | hin
    · exact inner_keys_of_keyShape base pOrd sOrd hshape pc hin
    · simp only [List.mem_cons, List.mem_singleton] at hin
      rcases hin with rfl | rfl | rfl | hin
      · exact keys_buildAcc _ sOrd hnd
      · exact keys_buildAcc _ sOrd hnd
      · exact keys_buildAcc _ sOrd hnd
      · exact absurd hin (by simp)

theorem classify_ok_keys (e : Dict) (a : RecAction) (h : classify e = .ok a) :
    ¬ lookupA e "proto" = none ∧ ¬ lookupA e "st" = none := by
  unfold classify at h
  cases hpr : lookupA e "proto" with
  | none => rw [hpr] at h; exact absurd h (by simp)
  | some pv =>
    cases hst : lookupA e "st" with
    | none => rw [hpr, hst] at h; exact absurd h (by simp)
    | some sv => exact ⟨by simp [hpr], by simp [hst]⟩

theorem countWith_ok_of_classify (pOrd sOrd : List String) (conns : List Dict)
    (hall : ∀ e ∈ conns, ∃ a, classify e = .ok a) :
    ∃ stats diags, count_connections_with pOrd sOrd conns = .ok (stats, diags) := by
  cases conns with
  | nil => exact ⟨addDerived sOrd (zeroFill pOrd sOrd), [], rfl⟩
  | cons e rest =>
    obtain ⟨a, ha⟩ := hall e (by simp)
    obtain ⟨hpr, hst⟩ := classify_ok_keys e a ha
    obtain ⟨⟨stats0, diags0⟩, hl⟩ :=
      countLoop_ok_of_classify (e :: rest) (zeroFill pOrd sOrd) [] hall
    refine ⟨addDerived sOrd stats0, diags0, ?_⟩
    simp only [count_connections_with]
    rw [if_neg hst, if_neg hpr, hl]

theorem countWith_classify_of_ok (pOrd sOrd : List String) (conns : List Dict)
    (stats : Stats) (diags : List String)
    (h : count_connections_with pOrd sOrd conns = .ok (stats, diags)) :
    ∀ e ∈ conns, ∃ a, classify e = .ok a := by
  cases conns with
  | nil => intro e he; exact absurd he (by simp)
  | cons e0 rest =>
    simp only [count_connections_with] at h
    by_cases hst : lookupA e0 "st" = none
    · rw [if_pos hst] at h; exact absurd h (by simp)
    · rw [if_neg hst] at h
      by_cases hpr : lookupA e0 "proto" = none
      · rw [if_pos hpr] at h; exact absurd h (by simp)
      · rw [if_neg hpr] at h
        cases hl : countLoop (zeroFill pOrd sOrd) [] (e0 :: rest) with
        | error err => rw [hl] at h; exact absurd h (by simp)
        | ok r => exact countLoop_classify_ok (e0 :: rest) _ _ _ hl

theorem lookup_of_mem_nodup {α : Type} (l : List (String × α))
    (hnd : (l.map Prod.fst).Nodup) (kv : String × α) (h : kv ∈ l) :
    lookupA l kv.1 = some kv.2 := by
  induction l with
  | nil => exact absurd h (by simp)
  | cons kv0 rest ih =>
    obtain ⟨k, v⟩ := kv0
    rcases List.mem_cons.mp h with rfl | hmem
    · simp [lookupA]
    · have hk : ¬ k = kv.1 := by
        intro hc
        have : kv.1 ∈ rest.map Prod.fst := List.mem_map_of_mem Prod.fst hmem
        rw [← hc] at this
        exact (List.nodup_cons.mp (by simpa using hnd)).1 this
      simp only [lookupA, if_neg hk]
      exact ih (List.nodup_cons.mp (by simpa using hnd)).2 hmem

theorem getCell_zeroFill (pOrd sOrd : List String) (p s : String) :
    getCell (zeroFill pOrd sOrd) p s = 0 := by
  unfold getCell
  rw [getA_zeroFill]
  by_cases hp : p ∈ pOrd
  · by_cases hs : s ∈ sOrd <;> simp [hp, hs]
  · simp [hp]

theorem classify_ok_of_keys (e : Dict)
    (hpr : ¬ lookupA e "proto" = none) (hst : ¬ lookupA e "st" = none) :
    ∃ a, classify e = .ok a := by
  obtain ⟨pv, hpv⟩ := Option.ne_none_iff_exists'.mp hpr
  obtain ⟨sv, hsv⟩ := Option.ne_none_iff_exists'.mp hst
  unfold classify
  rw [hpv, hsv]
  cases pv with
  | num n => exact ⟨.skip ("Unsupported protocol: " ++ valueStr (.num n)), rfl⟩
  | str p =>
    cases sv with
    | str s =>
      by_cases hp : p ∈ supported_protocols
      · by_cases hs : s ∈ supported_states
        · exact ⟨.tally p s, by simp [hp, hs]⟩
        · exact ⟨.skip ("Unsupported connection state: " ++ s), by simp [hp, hs]⟩
      · exact ⟨.skip ("Unsupported protocol: " ++ p), by simp [hp]⟩
    | num n =>
      by_cases hp : p ∈ supported_protocols
      · exact ⟨.skip ("Unsupported connection state: " ++ valueStr (.num n)), by simp [hp]⟩
      · exact ⟨.skip ("Unsupported protocol: " ++ p), by simp [hp]⟩

theorem classify_skip_of_unsupported (r : Dict)
    (hpr : ¬ lookupA r "proto" = none) (hst : ¬ lookupA r "st" = none)
    (hbad : (∀ p ∈ supported_protocols, ¬ lookupA r "proto" = some (Value.str p)) ∨
            (∀ s ∈ supported_states, ¬ lookupA r "st" = some (Value.str s))) :
    ∃ msg, classify r = .ok (.skip msg) := by
  obtain ⟨pv, hpv⟩ := Option.ne_none_iff_exists'.mp hpr
  obtain ⟨sv, hsv⟩ := Option.ne_none_iff_exists'.mp hst
  unfold classify
  rw [hpv, hsv]
  cases pv with
  | num n => exact ⟨"Unsupported protocol: " ++ valueStr (.num n), rfl⟩
  | str p =>
    by_cases hp : p ∈ supported_protocols
    · have hsbad : ∀ s ∈ supported_states, ¬ lookupA r "st" = some (Value.str s) := by
        rcases hbad with hb | hb
        · exact absurd hpv (hb p hp)
        · exact hb
      cases sv with
      | str s =>
        have hs : s ∉ supported_states := fun hc => (hsbad s hc) hsv
        exact ⟨"Unsupported connection state: " ++ s, by simp [hp, hs]⟩
      | num n => exact ⟨"Unsupported connection state: " ++ valueStr (.num n), by simp [hp]⟩
    · cases sv with
      | str s => exact ⟨"Unsupported protocol: " ++ p, by simp [hp]⟩
      | num n => exact ⟨"Unsupported protocol: " ++ p, by simp [hp]⟩

theorem tallies_append_skip (pre post : List Dict) (r : Dict) (msg : String)
    (hr : classify r = .ok (.skip msg)) (p s : String) :
    tallies (pre ++ r :: post) p s = tallies (pre ++ post) p s := by
  have ht : isTally p s r = false := by simp [isTally, hr]
  unfold tallies
  rw [List.filter_append, List.filter_append, List.filter_cons, ht]
  simp

theorem cellValue_append_skip (pre post : List Dict) (r : Dict) (msg : String)
    (hr : classify r = .ok (.skip msg)) (p s : String) :
    cellValue (pre ++ r :: post) p s = cellValue (pre ++ post) p s := by
  unfold cellValue
  rw [tallies_append_skip pre post r msg hr p s,
      tallies_append_skip pre post r msg hr "tcp4" s,
      tallies_append_skip pre post r msg hr "tcp6" s,
      tallies_append_skip pre post r msg hr "udp4" s,
      tallies_append_skip pre post r msg hr "udp6" s]

/-- C3: for every input record sequence on which the aggregator produces an
output (including the empty sequence), every state's cells satisfy
`tcp = tcp4 + tcp6`, `udp = udp4 + udp6` and `all = tcp4 + tcp6 + udp4 +
udp6`; the derived rows are recomputed as these sums for every input, even
one containing records labelled with a derived key (such records are skipped,
never counted into a derived row directly). -/
theorem c3_rollup_sums (conns : List Dict) (stats : Stats) (diags : List String)
    (h : count_connections conns = .ok (stats, diags)) :
    ∀ s ∈ supported_states, ∃ a b c d,
      getA stats "tcp4" s = some a ∧ getA stats "tcp6" s = some b ∧
      getA stats "udp4" s = some c ∧ getA stats "udp6" s = some d ∧
      getA stats "tcp" s = some (a + b) ∧ getA stats "udp" s = some (c + d) ∧
      getA stats "all" s = some (a + b + c + d) := by
  intro s hss
  have hchar := countWith_getA supported_protocols supported_states conns
    (List.Perm.refl _) (List.Perm.refl _) stats diags h
  have m4 : ("tcp4" : String) ∈ supported_protocols := by decide
  have m6 : ("tcp6" : String) ∈ supported_protocols := by decide
  have mu4 : ("udp4" : String) ∈ supported_protocols := by decide
  have mu6 : ("udp6" : String) ∈ supported_protocols := by decide
  have mt : ("tcp" : String) ∉ supported_protocols := by decide
  have mu : ("udp" : String) ∉ supported_protocols := by decide
  have ma : ("all" : String) ∉ supported_protocols := by decide
  refine ⟨tallies conns "tcp4" s, tallies conns "tcp6" s,
          tallies conns "udp4" s, tallies conns "udp6" s, ?_, ?_, ?_, ?_, ?_, ?_, ?_⟩
  · rw [hchar]; simp [cellValue, hss, m4]
  · rw [hchar]; simp [cellValue, hss, m6]
  · rw [hchar]; simp [cellValue, hss, mu4]
  · rw [hchar]; simp [cellValue, hss, mu6]
  · rw [hchar]; simp [cellValue, hss, mt]
  · rw [hchar]; simp [cellValue, hss, mu]
  · rw [hchar]
    simp [cellValue, hss, ma]
    omega

/-- Witness for C3 at a concrete input: the empty record sequence. -/
theorem c3_rollup_sums_witness :
    (∃ stats diags, count_connections [] = .ok (stats, diags)) ∧
    ("ESTABLISHED" : String) ∈ supported_states ∧
    (∀ stats diags, count_connections [] = .ok (stats, diags) →
      ∃ a b c d,
        getA stats "tcp4" "ESTABLISHED" = some a ∧
        getA stats "tcp6" "ESTABLISHED" = some b ∧
        getA stats "udp4" "ESTABLISHED" = some c ∧
        getA stats "udp6" "ESTABLISHED" = some d ∧
        getA stats "tcp" "ESTABLISHED" = some (a + b) ∧
        getA stats "udp" "ESTABLISHED" = some (c + d) ∧
        getA stats "all" "ESTABLISHED" = some (a + b + c + d)) := by
  refine ⟨⟨_, _, rfl⟩, by decide, ?_⟩
  intro stats diags h
  exact c3_rollup_sums [] stats diags h "ESTABLISHED" (by decide)

/-- C4: whenever the aggregator produces an output, the outer mapping has
exactly the seven protocol keys, each inner mapping has exactly the twelve
state names, every count is a non-negative integer, and with zero input
records every count is zero. -/
theorem c4_matrix_shape (conns : List Dict) (stats : Stats) (diags : List String)
    (h : count_connections conns = .ok (stats, diags)) :
    stats.map Prod.fst = ["tcp4", "tcp6", "udp4", "udp6", "tcp", "udp", "all"] ∧
    (∀ pc ∈ stats, pc.2.map Prod.fst = supported_states) ∧
    (∀ pc ∈ stats, ∀ sc ∈ pc.2, 0 ≤ sc.2) ∧
    (conns = [] → ∀ pc ∈ stats, ∀ sc ∈ pc.2, sc.2 = 0) := by
  obtain ⟨hkeys, hinner⟩ := countWith_keys supported_protocols supported_states conns
    (List.Perm.refl _) (List.Perm.refl _) stats diags h
  refine ⟨hkeys, hinner, fun pc _ sc _ => Nat.zero_le _, ?_⟩
  intro hnil
  subst hnil
  obtain ⟨base, hloop, -, -, -, -, -, hstats⟩ :=
    countWith_decomp supported_protocols supported_states []
      (List.Perm.refl _) stats diags h
  have hbase : base = zeroFill supported_protocols supported_states := by
    simp only [countLoop, Except.ok.injEq, Prod.mk.injEq] at hloop
    exact hloop.1.symm
  subst hbase
  have hrT : ∀ s, rollT (zeroFill supported_protocols supported_states) s = 0 := by
    intro s
    unfold rollT
    rw [getCell_zeroFill, getCell_zeroFill]
  have hrU : ∀ s, rollU (zeroFill supported_protocols supported_states) s = 0 := by
    intro s
    unfold rollU
    rw [getCell_zeroFill, getCell_zeroFill]
  have hrA : ∀ s, rollA (zeroFill supported_protocols supported_states) s = 0 := by
    intro s
    unfold rollA
    rw [hrT, hrU]
  intro pc hpc sc hsc
  rw [hstats] at hpc
  rcases List.mem_append.mp hpc with hin | hin
  · obtain ⟨p, -, hpeq⟩ := List.mem_map.mp hin
    have hsnd : pc.2 = supported_states.map (fun s => (s, 0)) := by
      rw [← hpeq]
    rw [hsnd] at hsc
    obtain ⟨s, -, hseq⟩ := List.mem_map.mp hsc
    rw [← hseq]
  · simp only [List.mem_cons, List.mem_singleton] at hin
    rcases hin with rfl | rfl | rfl | hin
    · have := values_buildAcc _ supported_states sc hsc
      rw [this, hrT]
    · have := values_buildAcc _ supported_states sc hsc
      rw [this, hrU]
    · have := values_buildAcc _ supported_states sc hsc
      rw [this, hrA]
    · exact absurd hin (by simp)

/-- Witness for C4 at a concrete input: the empty record sequence. -/
theorem c4_matrix_shape_witness :
    (∃ stats diags, count_connections [] = .ok (stats, diags)) ∧
    (∀ stats diags, count_connections [] = .ok (stats, diags) →
      stats.map Prod.fst = ["tcp4", "tcp6", "udp4", "udp6", "tcp", "udp", "all"] ∧
      (∀ pc ∈ stats, pc.2.map Prod.fst = supported_states) ∧
      (∀ pc ∈ stats, ∀ sc ∈ pc.2, 0 ≤ sc.2) ∧
      (([] : List Dict) = [] → ∀ pc ∈ stats, ∀ sc ∈ pc.2, sc.2 = 0)) := by
  refine ⟨⟨_, _, rfl⟩, ?_⟩
  intro stats diags h
  exact c4_matrix_shape [] stats diags h

/-- C9: the aggregation result, read as a mapping, does not depend on the
order in which the two supported sets are enumerated (in CPython, `set`
iteration order varies with the per-process string hash seed, so two fresh
runs may build their dictionaries in different orders): any two runs over
the same records from fresh zero matrices succeed together and agree on
every cell and on the diagnostics. -/
theorem c9_aggregation_deterministic (conns : List Dict)
    (p1 s1 p2 s2 : List String)
    (hp1 : p1.Perm supported_protocols) (hs1 : s1.Perm supported_states)
    (hp2 : p2.Perm supported_protocols) (hs2 : s2.Perm supported_states)
    (st1 : Stats) (d1 : List String)
    (h1 : count_connections_with p1 s1 conns = .ok (st1, d1)) :
    ∃ st2 d2, count_connections_with p2 s2 conns = .ok (st2, d2) ∧
      (∀ p s, getA st2 p s = getA st1 p s) ∧ d2 = d1 := by
  obtain ⟨st2, d2, h2⟩ := countWith_ok_of_classify p2 s2 conns
    (countWith_classify_of_ok p1 s1 conns st1 d1 h1)
  refine ⟨st2, d2, h2, ?_, ?_⟩
  · intro p s
    rw [countWith_getA p2 s2 conns hp2 hs2 st2 d2 h2 p s,
        countWith_getA p1 s1 conns hp1 hs1 st1 d1 h1 p s]
  · rw [countWith_diags p2 s2 conns hp2 st2 d2 h2,
        countWith_diags p1 s1 conns hp1 st1 d1 h1]

/-- Witness for C9 at a concrete input: one record, two different
enumeration orders of both sets. -/
theorem c9_aggregation_deterministic_witness :
    (["tcp6", "tcp4", "udp4", "udp6"] : List String).Perm supported_protocols ∧
    (∃ st1 d1, count_connections_with ["tcp6", "tcp4", "udp4", "udp6"]
        supported_states [testOutput "ESTABLISHED"] = .ok (st1, d1)) ∧
    (∀ st1 d1,
      count_connections_with ["tcp6", "tcp4", "udp4", "udp6"] supported_states
        [testOutput "ESTABLISHED"] = .ok (st1, d1) →
      ∃ st2 d2, count_connections_with supported_protocols supported_states
          [testOutput "ESTABLISHED"] = .ok (st2, d2) ∧
        (∀ p s, getA st2 p s = getA st1 p s) ∧ d2 = d1) := by
  refine ⟨by decide, ⟨_, _, rfl⟩, ?_⟩
  intro st1 d1 h1
  exact c9_aggregation_deterministic [testOutput "ESTABLISHED"]
    ["tcp6", "tcp4", "udp4", "udp6"] supported_states
    supported_protocols supported_states
    (by decide) (List.Perm.refl _) (List.Perm.refl _) (List.Perm.refl _)
    st1 d1 h1

/-- C8: for a record sequence whose records all carry the `proto` and `st`
keys, a record whose protocol value is not one of the four supported
protocol strings, or whose state value is not one of the supported state
names, is skipped with a stderr diagnostic and changes no cell; aggregation
completes without raising on both the sequence with and without that record
and still returns the full dense matrix. -/
theorem c8_unsupported_record_skipped (pre post : List Dict) (r : Dict)
    (hkeys : ∀ e ∈ pre ++ r :: post,
      ¬ lookupA e "proto" = none ∧ ¬ lookupA e "st" = none)
    (hbad : (∀ p ∈ supported_protocols, ¬ lookupA r "proto" = some (Value.str p)) ∨
            (∀ s ∈ supported_states, ¬ lookupA r "st" = some (Value.str s))) :
    ∃ stats diags stats2 diags2 msg,
      count_connections (pre ++ r :: post) = .ok (stats, diags) ∧
      count_connections (pre ++ post) = .ok (stats2, diags2) ∧
      (∀ p s, getA stats p s = getA stats2 p s) ∧
      classify r = .ok (.skip msg) ∧ msg ∈ diags ∧
      stats.map Prod.fst = ["tcp4", "tcp6", "udp4", "udp6", "tcp", "udp", "all"] := by
  have hkr := hkeys r (by simp)
  obtain ⟨msg, hskip⟩ := classify_skip_of_unsupported r hkr.1 hkr.2 hbad
  have hall1 : ∀ e ∈ pre ++ r :: post, ∃ a, classify e = .ok a := by
    intro e he
    exact classify_ok_of_keys e (hkeys e he).1 (hkeys e he).2
  have hall2 : ∀ e ∈ pre ++ post, ∃ a, classify e = .ok a := by
    intro e he
    have : e ∈ pre ++ r :: post := by
      rcases List.mem_append.mp he with he' | he'
      · exact List.mem_append.mpr (Or.inl he')
      · exact List.mem_append.mpr (Or.inr (List.mem_cons_of_mem _ he'))
    exact classify_ok_of_keys e (hkeys e this).1 (hkeys e this).2
  obtain ⟨stats, diags, h1⟩ :=
    countWith_ok_of_classify supported_protocols supported_states _ hall1
  obtain ⟨stats2, diags2, h2⟩ :=
    countWith_ok_of_classify supported_protocols supported_states _ hall2
  refine ⟨stats, diags, stats2, diags2, msg, h1, h2, ?_, hskip, ?_, ?_⟩
  · intro p s
    rw [countWith_getA supported_protocols supported_states _
          (List.Perm.refl _) (List.Perm.refl _) stats diags h1 p s,
        countWith_getA supported_protocols supported_states _
          (List.Perm.refl _) (List.Perm.refl _) stats2 diags2 h2 p s]
    exact cellValue_append_skip pre post r msg hskip p s
  · rw [countWith_diags supported_protocols supported_states _
          (List.Perm.refl _) stats diags h1]
    unfold skipMsgs
    rw [List.filterMap_append]
    refine List.mem_append.mpr (Or.inr ?_)
    have : skipMsg r = some msg := by simp [skipMsg, hskip]
    simp [List.filterMap_cons, this]
  · exact (countWith_keys supported_protocols supported_states _
      (List.Perm.refl _) (List.Perm.refl _) stats diags h1).1

/-- Witness for C8 at a concrete input: a single record with an unsupported
protocol value. -/
theorem c8_unsupported_record_skipped_witness :
    (∀ e ∈ ([] : List Dict) ++ [("proto", Value.str "sctp"),
        ("st", Value.str "ESTABLISHED")] :: ([] : List Dict),
      ¬ lookupA e "proto" = none ∧ ¬ lookupA e "st" = none) ∧
    ((∀ p ∈ supported_protocols,
        ¬ lookupA [("proto", Value.str "sctp"), ("st", Value.str "ESTABLISHED")]
          "proto" = some (Value.str p)) ∨
     (∀ s ∈ supported_states,
        ¬ lookupA [("proto", Value.str "sctp"), ("st", Value.str "ESTABLISHED")]
          "st" = some (Value.str s))) ∧
    (∃ stats diags stats2 diags2 msg,
      count_connections ([] ++ [("proto", Value.str "sctp"),
        ("st", Value.str "ESTABLISHED")] :: []) = .ok (stats, diags) ∧
      count_connections ([] ++ []) = .ok (stats2, diags2) ∧
      (∀ p s, getA stats p s = getA stats2 p s) ∧
      classify [("proto", Value.str "sctp"), ("st", Value.str "ESTABLISHED")] =
        .ok (.skip msg) ∧ msg ∈ diags ∧
      stats.map Prod.fst = ["tcp4", "tcp6", "udp4", "udp6", "tcp", "udp", "all"]) := by
  refine ⟨by decide, Or.inl (by decide), ?_⟩
  exact c8_unsupported_record_skipped [] []
    [("proto", Value.str "sctp"), ("st", Value.str "ESTABLISHED")]
    (by decide) (Or.inl (by decide))

/-- C1 (the claim is right, the code has a slip): the state-decoding guard
`state_id < len(STATE_MAP)` lets `state_id = 0` through, but `STATE_MAP` has no
key 0, so a record with state code `00` makes post-processing raise
`KeyError` instead of mapping to UNKNOWN; codes 1..13 translate through the
table (`0C` and `0D` both to UNKNOWN) and codes ≥ 14 default to UNKNOWN, as
the claim states. -/
theorem c1_state_decoding_behaviour :
    post_process_connection_data [testRecord "00"] = .error "KeyError: 0" ∧
    post_process_connection_data [testRecord "01"] = .ok [testOutput "ESTABLISHED"] ∧
    post_process_connection_data [testRecord "0A"] = .ok [testOutput "LISTEN"] ∧
    post_process_connection_data [testRecord "0C"] = .ok [testOutput "UNKNOWN"] ∧
    post_process_connection_data [testRecord "0D"] = .ok [testOutput "UNKNOWN"] ∧
    post_process_connection_data [testRecord "0E"] = .ok [testOutput "UNKNOWN"] := by
  refine ⟨?_, ?_, ?_, ?_, ?_, ?_⟩ <;> decide

/-- Counterexample to C2 as stated: a grammatically valid tcp4 line whose
32-hex-digit remote field decodes to the all-zero IPv6 form passes the
whole decoder and is present in its output (the tcp4 branch of the drop
check only compares against `0.0.0.0`). -/
theorem c2_counterexample_cross_family_any_kept :
    parse_raw_connection_data [crossFamilyLine] [] [] [] = .ok [crossFamilyRecord] ∧
    post_process_connection_data [crossFamilyRecord] = .ok [crossFamilyOutput] ∧
    lookupA crossFamilyOutput "rem_address" = some (.str zero6) ∧
    lookupA crossFamilyOutput "proto" = some (.str "tcp4") := by
  refine ⟨?_, ?_, ?_, ?_⟩ <;> decide

theorem getKey_ok (e : Dict) (k : String) (v : Value) (h : getKey e k = .ok v) :
    lookupA e k = some v := by
  unfold getKey at h
  cases hl : lookupA e k with
  | none => rw [hl] at h; exact absurd h (by simp)
  | some v0 =>
    rw [hl] at h
    simp only [Except.ok.injEq] at h
    rw [h]

theorem convAddr_ok (e : Dict) (k : String) (e2 : Dict) (h : convAddr e k = .ok e2) :
    ∃ la, e2 = setA e k (.str la) := by
  unfold convAddr at h
  cases h1 : getKey e k with
  | error err => rw [h1] at h; exact absurd h (by simp)
  | ok v =>
    rw [h1] at h
    try simp only [] at h
    cases h2 : hexIpOfValue v with
    | error err => rw [h2] at h; exact absurd h (by simp)
    | ok la =>
      rw [h2] at h
      try simp only [] at h
      simp only [Except.ok.injEq] at h
      exact ⟨la, h.symm⟩

theorem convPort_ok (e : Dict) (k : String) (e2 : Dict) (h : convPort e k = .ok e2) :
    ∃ n, e2 = setA e k (.num n) := by
  unfold convPort at h
  cases h1 : getKey e k with
  | error err => rw [h1] at h; exact absurd h (by simp)
  | ok v =>
    rw [h1] at h
    try simp only [] at h
    cases h2 : toHexNat v with
    | error err => rw [h2] at h; exact absurd h (by simp)
    | ok n =>
      rw [h2] at h
      try simp only [] at h
      simp only [Except.ok.injEq] at h
      exact ⟨n, h.symm⟩

/-- A kept entry of `post_one` never combines a v4 protocol with remote
`0.0.0.0`, nor a v6 protocol with the all-zero IPv6 remote: exactly the
drop conditions of the source. -/
theorem post_one_kept (e0 d : Dict) (h : post_one e0 = .ok (some d)) :
    ((lookupA d "proto" = some (.str "tcp4") ∨ lookupA d "proto" = some (.str "udp4")) →
      ¬ lookupA d "rem_address" = some (.str "0.0.0.0")) ∧
    ((lookupA d "proto" = some (.str "tcp6") ∨ lookupA d "proto" = some (.str "udp6")) →
      ¬ lookupA d "rem_address" = some (.str zero6)) := by
  unfold post_one at h
  cases hc1 : convAddr e0 "local_address" with
  | error err => rw [hc1] at h; exact absurd h (by simp)
  | ok e1 =>
  rw [hc1] at h
  try simp only [] at h
  cases hc2 : convPort e1 "local_port" with
  | error err => rw [hc2] at h; exact absurd h (by simp)
  | ok e2 =>
  rw [hc2] at h
  try simp only [] at h
  cases hc3 : convAddr e2 "rem_address" with
  | error err => rw [hc3] at h; exact absurd h (by simp)
  | ok e3 =>
  rw [hc3] at h
  try simp only [] at h
  cases hc4 : convPort e3 "rem_port" with
  | error err => rw [hc4] at h; exact absurd h (by simp)
  | ok e4 =>
  rw [hc4] at h
  try simp only [] at h
  cases hp : getKey e4 "proto" with
  | error err => rw [hp] at h; exact absurd h (by simp)
  | ok proto =>
  rw [hp] at h
  try simp only [] at h
  cases hr : getKey e4 "rem_address" with
  | error err => rw [hr] at h; exact absurd h (by simp)
  | ok ra =>
  rw [hr] at h
  try simp only [] at h
  by_cases g1 : (proto = Value.str "tcp4" ∨ proto = Value.str "udp4") ∧
      ra = Value.str "0.0.0.0"
  · rw [if_pos g1] at h; exact absurd h (by simp)
  · rw [if_neg g1] at h
    by_cases g2 : (proto = Value.str "tcp6" ∨ proto = Value.str "udp6") ∧
        ra = Value.str zero6
    · rw [if_pos g2] at h; exact absurd h (by simp)
    · rw [if_neg g2] at h
      cases hs : getKey e4 "st" with
      | error err => rw [hs] at h; exact absurd h (by simp)
      | ok sv =>
      rw [hs] at h
      try simp only [] at h
      cases hn : toHexNat sv with
      | error err => rw [hn] at h; exact absurd h (by simp)
      | ok state_id =>
      rw [hn] at h
      try simp only [] at h
      cases hst : stateOfId state_id with
      | error err => rw [hst] at h; exact absurd h (by simp)
      | ok state =>
      rw [hst] at h
      try simp only [] at h
      simp only [Except.ok.injEq, Option.some.injEq] at h
      have hd : d = setA e4 "st" (.str state) := h.symm
      have hdp : lookupA d "proto" = some proto := by
        rw [hd, lookupA_setA]
        simp only [if_neg (by decide : ¬ ("proto" : String) = "st")]
        exact getKey_ok e4 "proto" proto hp
      have hdr : lookupA d "rem_address" = some ra := by
        rw [hd, lookupA_setA]
        simp only [if_neg (by decide : ¬ ("rem_address" : String) = "st")]
        exact getKey_ok e4 "rem_address" ra hr
      constructor
      · intro hv4 hzero
        rw [hdp] at hv4
        rw [hdr] at hzero
        simp only [Option.some.injEq] at hv4 hzero
        apply g1
        constructor
        · rcases hv4 with h4 | h4
          · exact Or.inl h4
          · exact Or.inr h4
        · rw [hzero]
      · intro hv6 hzero
        rw [hdp] at hv6
        rw [hdr] at hzero
        simp only [Option.some.injEq] at hv6 hzero
        apply g2
        constructor
        · rcases hv6 with h6 | h6
          · exact Or.inl h6
          · exact Or.inr h6
        · rw [hzero]

/-- C2 amended: the drop filter is family-specific.  Every record in the
post-processed output satisfies: if its protocol is `tcp4` or `udp4` its
remote address is not `0.0.0.0`, and if its protocol is `tcp6` or `udp6`
its remote address is not the all-zero IPv6 form.  (Cross-family
combinations — see the counterexample — are kept.) -/
theorem c2_family_specific_any_filter (conns out : List Dict)
    (h : post_process_connection_data conns = .ok out) :
    ∀ d ∈ out,
      ((lookupA d "proto" = some (.str "tcp4") ∨ lookupA d "proto" = some (.str "udp4")) →
        ¬ lookupA d "rem_address" = some (.str "0.0.0.0")) ∧
      ((lookupA d "proto" = some (.str "tcp6") ∨ lookupA d "proto" = some (.str "udp6")) →
        ¬ lookupA d "rem_address" = some (.str zero6)) := by
  induction conns generalizing out with
  | nil =>
    simp only [post_process_connection_data, Except.ok.injEq] at h
    intro d hd
    rw [← h] at hd
    exact absurd hd (by simp)
  | cons e rest ih =>
    simp only [post_process_connection_data] at h
    cases h1 : post_one e with
    | error err => rw [h1] at h; exact absurd h (by simp)
    | ok r =>
    rw [h1] at h
    cases h2 : post_process_connection_data rest with
    | error err => rw [h2] at h; exact absurd h (by simp)
    | ok rest2 =>
    rw [h2] at h
    cases r with
    | none =>
      simp only [Except.ok.injEq] at h
      intro d hd
      rw [← h] at hd
      exact ih rest2 h2 d hd
    | some d0 =>
      simp only [Except.ok.injEq] at h
      intro d hd
      rw [← h] at hd
      rcases List.mem_cons.mp hd with rfl | hd'
      · exact post_one_kept e d h1
      · exact ih rest2 h2 d hd'

/-- Witness for C2's amended theorem at a concrete input: post-processing
the example record yields one output record satisfying both family
conditions. -/
theorem c2_family_specific_any_filter_witness :
    post_process_connection_data [testRecord "01"] = .ok [testOutput "ESTABLISHED"] ∧
    (((lookupA (testOutput "ESTABLISHED") "proto" = some (.str "tcp4") ∨
       lookupA (testOutput "ESTABLISHED") "proto" = some (.str "udp4")) →
      ¬ lookupA (testOutput "ESTABLISHED") "rem_address" = some (.str "0.0.0.0")) ∧
     ((lookupA (testOutput "ESTABLISHED") "proto" = some (.str "tcp6") ∨
       lookupA (testOutput "ESTABLISHED") "proto" = some (.str "udp6")) →
      ¬ lookupA (testOutput "ESTABLISHED") "rem_address" = some (.str zero6))) := by
  refine ⟨by decide, ?_⟩
  exact c2_family_specific_any_filter [testRecord "01"] [testOutput "ESTABLISHED"]
    (by decide) (testOutput "ESTABLISHED") (by simp)

/-- C6: the end-to-end example.  The single tcp4 line with local
`0100007F:0050`, remote `0100007F:01BB`, state `01` parses to exactly one
record, post-processing yields exactly one record with protocol tcp4, state
ESTABLISHED, local 127.0.0.1:80, remote 127.0.0.1:443 (ports plain hex, no
byte reversal), and aggregation puts 1 into tcp4/tcp/all × ESTABLISHED and
0 into every other cell. -/
theorem c6_end_to_end_example :
    parse_raw_connection_data [exampleLine] [] [] [] = .ok [testRecord "01"] ∧
    post_process_connection_data [testRecord "01"] = .ok [testOutput "ESTABLISHED"] ∧
    lookupA (testOutput "ESTABLISHED") "proto" = some (.str "tcp4") ∧
    lookupA (testOutput "ESTABLISHED") "st" = some (.str "ESTABLISHED") ∧
    lookupA (testOutput "ESTABLISHED") "local_address" = some (.str "127.0.0.1") ∧
    lookupA (testOutput "ESTABLISHED") "local_port" = some (.num 80) ∧
    lookupA (testOutput "ESTABLISHED") "rem_address" = some (.str "127.0.0.1") ∧
    lookupA (testOutput "ESTABLISHED") "rem_port" = some (.num 443) ∧
    cellOf (count_connections [testOutput "ESTABLISHED"]) "tcp4" "ESTABLISHED" = some 1 ∧
    cellOf (count_connections [testOutput "ESTABLISHED"]) "tcp" "ESTABLISHED" = some 1 ∧
    cellOf (count_connections [testOutput "ESTABLISHED"]) "all" "ESTABLISHED" = some 1 ∧
    (∀ p ∈ ["tcp4", "tcp6", "udp4", "udp6", "tcp", "udp", "all"],
      ∀ s ∈ supported_states,
        ¬ ((p = "tcp4" ∨ p = "tcp" ∨ p = "all") ∧ s = "ESTABLISHED") →
        cellOf (count_connections [testOutput "ESTABLISHED"]) p s = some 0) := by
  refine ⟨?_, ?_, ?_, ?_, ?_, ?_, ?_, ?_, ?_, ?_, ?_, ?_⟩ <;> decide

theorem parse_line_error (l : String) (h : isOkE (parse_line l) = false) :
    parse_line l = .error (lineErrMsg l) := by
  unfold parse_line at h ⊢
  cases hm : matchLine l.toList with
  | some g => rw [hm] at h; simp [isOkE] at h
  | none => rfl

theorem parseProtoLines_error (lines : List String) (proto : String)
    (hex : ∃ l ∈ lines, isOkE (parse_line l) = false) :
    ∃ l ∈ lines, isOkE (parse_line l) = false ∧
      parseProtoLines lines proto = .error (lineErrMsg l) := by
  induction lines with
  | nil => obtain ⟨l, hl, -⟩ := hex; exact absurd hl (by simp)
  | cons l0 rest ih =>
    cases hf : isOkE (parse_line l0) with
    | false =>
      refine ⟨l0, by simp, hf, ?_⟩
      simp only [parseProtoLines]
      rw [parse_line_error l0 hf]
    | true =>
      have hrest : ∃ l ∈ rest, isOkE (parse_line l) = false := by
        obtain ⟨l, hl, hfl⟩ := hex
        rcases List.mem_cons.mp hl with rfl | hl'
        · rw [hf] at hfl; exact absurd hfl (by simp)
        · exact ⟨l, hl', hfl⟩
      obtain ⟨l, hl, hfl, herr⟩ := ih hrest
      refine ⟨l, List.mem_cons_of_mem _ hl, hfl, ?_⟩
      simp only [parseProtoLines]
      cases hp : parse_line l0 with
      | error err => rw [hp] at hf; simp [isOkE] at hf
      | ok e =>
        rw [herr]

theorem parseProtoLines_ok (lines : List String) (proto : String)
    (hall : ∀ l ∈ lines, isOkE (parse_line l) = true) :
    ∃ out, parseProtoLines lines proto = .ok out := by
  induction lines with
  | nil => exact ⟨[], rfl⟩
  | cons l0 rest ih =>
    have h0 := hall l0 (by simp)
    obtain ⟨out, hout⟩ := ih (fun l hl => hall l (List.mem_cons_of_mem _ hl))
    cases hp : parse_line l0 with
    | error err => rw [hp] at h0; simp [isOkE] at h0
    | ok e =>
      refine ⟨setA e "proto" (.str proto) :: out, ?_⟩
      simp only [parseProtoLines]
      rw [hp, hout]

/-- C7: if any line of the four input sequences fails the line grammar, the
decoder raises the malformed-line error carrying an offending line; the
whole call returns that error, so no record list — not even a partial one —
is produced (`Except.error` carries no records). -/
theorem c7_malformed_line_aborts (tcp4 tcp6 udp4 udp6 : List String)
    (hex : ∃ l ∈ tcp4 ++ tcp6 ++ udp4 ++ udp6, isOkE (parse_line l) = false) :
    ∃ l, l ∈ tcp4 ++ tcp6 ++ udp4 ++ udp6 ∧ isOkE (parse_line l) = false ∧
      parse_raw_connection_data tcp4 tcp6 udp4 udp6 = .error (lineErrMsg l) := by
  by_cases h1 : ∃ l ∈ tcp4, isOkE (parse_line l) = false
  · obtain ⟨l, hl, hfl, herr⟩ := parseProtoLines_error tcp4 "tcp4" h1
    refine ⟨l, by simp [hl], hfl, ?_⟩
    simp only [parse_raw_connection_data]
    rw [herr]
  · have hall1 : ∀ l ∈ tcp4, isOkE (parse_line l) = true := by
      intro l hl
      rcases Bool.eq_false_or_eq_true (isOkE (parse_line l)) with hb | hb
      · exact hb
      · exact absurd ⟨l, hl, hb⟩ h1
    obtain ⟨o1, ho1⟩ := parseProtoLines_ok tcp4 "tcp4" hall1
    by_cases h2 : ∃ l ∈ tcp6, isOkE (parse_line l) = false
    · obtain ⟨l, hl, hfl, herr⟩ := parseProtoLines_error tcp6 "tcp6" h2
      refine ⟨l, by simp [hl], hfl, ?_⟩
      simp only [parse_raw_connection_data]
      rw [ho1, herr]
    · have hall2 : ∀ l ∈ tcp6, isOkE (parse_line l) = true := by
        intro l hl
        rcases Bool.eq_false_or_eq_true (isOkE (parse_line l)) with hb | hb
        · exact hb
        · exact absurd ⟨l, hl, hb⟩ h2
      obtain ⟨o2, ho2⟩ := parseProtoLines_ok tcp6 "tcp6" hall2
      by_cases h3 : ∃ l ∈ udp4, isOkE (parse_line l) = false
      · obtain ⟨l, hl, hfl, herr⟩ := parseProtoLines_error udp4 "udp4" h3
        refine ⟨l, by simp [hl], hfl, ?_⟩
        simp only [parse_raw_connection_data]
        rw [ho1, ho2, herr]
      · have hall3 : ∀ l ∈ udp4, isOkE (parse_line l) = true := by
          intro l hl
          rcases Bool.eq_false_or_eq_true (isOkE (parse_line l)) with hb | hb
          · exact hb
          · exact absurd ⟨l, hl, hb⟩ h3
        obtain ⟨o3, ho3⟩ := parseProtoLines_ok udp4 "udp4" hall3
        have h4 : ∃ l ∈ udp6, isOkE (parse_line l) = false := by
          obtain ⟨l, hl, hfl⟩ := hex
          simp only [List.mem_append] at hl
          rcases hl with ((hl | hl) | hl) | hl
          · exact absurd ⟨l, hl, hfl⟩ h1
          · exact absurd ⟨l, hl, hfl⟩ h2
          · exact absurd ⟨l, hl, hfl⟩ h3
          · exact ⟨l, hl, hfl⟩
        obtain ⟨l, hl, hfl, herr⟩ := parseProtoLines_error udp6 "udp6" h4
        refine ⟨l, by simp [hl], hfl, ?_⟩
        simp only [parse_raw_connection_data]
        rw [ho1, ho2, ho3, herr]

/-- Witness for C7 at a concrete input: a single malformed tcp4 line. -/
theorem c7_malformed_line_aborts_witness :
    (∃ l ∈ ["garbage"] ++ [] ++ [] ++ [], isOkE (parse_line l) = false) ∧
    (∃ l, l ∈ ["garbage"] ++ [] ++ [] ++ [] ∧ isOkE (parse_line l) = false ∧
      parse_raw_connection_data ["garbage"] [] [] [] = .error (lineErrMsg l)) := by
  refine ⟨⟨"garbage", by simp, by decide⟩, ?_⟩
  exact c7_malformed_line_aborts ["garbage"] [] [] []
    ⟨"garbage", by simp, by decide⟩

theorem len_destruct {α : Type} (l : List α) (n : Nat) (h : l.length = n + 1) :
    ∃ a t, l = a :: t ∧ t.length = n := by
  cases l with
  | nil => simp at h
  | cons a t => exact ⟨a, t, rfl, by simpa using h⟩

theorem hexVal2 (a b : Char) (da db : Nat) (ha : hexDigitVal a = some da)
    (hb : hexDigitVal b = some db) : hexVal? [a, b] = some (da * 16 + db) := by
  simp [hexVal?, List.foldlM, ha, hb]

theorem hex_ip_list8 (cs : List Char) (hlen : cs.length = 8)
    (hhex : ∀ c ∈ cs, (hexDigitVal c).isSome) :
    ∃ out, ipv4_render_spec cs = some out ∧
      hex_ip_to_decimal (String.mk cs) = .ok out := by
  obtain ⟨c1, cs, rfl, hl1⟩ := len_destruct cs 7 hlen
  obtain ⟨c2, cs, rfl, hl2⟩ := len_destruct cs 6 hl1
  obtain ⟨c3, cs, rfl, hl3⟩ := len_destruct cs 5 hl2
  obtain ⟨c4, cs, rfl, hl4⟩ := len_destruct cs 4 hl3
  obtain ⟨c5, cs, rfl, hl5⟩ := len_destruct cs 3 hl4
  obtain ⟨c6, cs, rfl, hl6⟩ := len_destruct cs 2 hl5
  obtain ⟨c7, cs, rfl, hl7⟩ := len_destruct cs 1 hl6
  obtain ⟨c8, cs, rfl, hl8⟩ := len_destruct cs 0 hl7
  have hnil : cs = [] := List.length_eq_zero.mp hl8
  subst hnil
  obtain ⟨d1, hd1⟩ := Option.isSome_iff_exists.mp (hhex c1 (by simp))
  obtain ⟨d2, hd2⟩ := Option.isSome_iff_exists.mp (hhex c2 (by simp))
  obtain ⟨d3, hd3⟩ := Option.isSome_iff_exists.mp (hhex c3 (by simp))
  obtain ⟨d4, hd4⟩ := Option.isSome_iff_exists.mp (hhex c4 (by simp))
  obtain ⟨d5, hd5⟩ := Option.isSome_iff_exists.mp (hhex c5 (by simp))
  obtain ⟨d6, hd6⟩ := Option.isSome_iff_exists.mp (hhex c6 (by simp))
  obtain ⟨d7, hd7⟩ := Option.isSome_iff_exists.mp (hhex c7 (by simp))
  obtain ⟨d8, hd8⟩ := Option.isSome_iff_exists.mp (hhex c8 (by simp))
  refine ⟨toString (d7 * 16 + d8) ++ "." ++ toString (d5 * 16 + d6) ++ "." ++
      toString (d3 * 16 + d4) ++ "." ++ toString (d1 * 16 + d2), ?_, ?_⟩
  · unfold ipv4_render_spec
    simp only [bytePairs, List.reverse_cons, List.reverse_nil, List.nil_append,
      List.cons_append, List.singleton_append]
    rw [List.mapM_cons, List.mapM_cons, List.mapM_cons, List.mapM_cons, List.mapM_nil,
      hexVal2 c7 c8 d7 d8 hd7 hd8, hexVal2 c5 c6 d5 d6 hd5 hd6,
      hexVal2 c3 c4 d3 d4 hd3 hd4, hexVal2 c1 c2 d1 d2 hd1 hd2]
    rfl
  · unfold hex_ip_to_decimal
    simp only [String.toList]
    rw [show slice2 [c1, c2, c3, c4, c5, c6, c7, c8] 6 = [c7, c8] from rfl,
        show slice2 [c1, c2, c3, c4, c5, c6, c7, c8] 4 = [c5, c6] from rfl,
        show slice2 [c1, c2, c3, c4, c5, c6, c7, c8] 2 = [c3, c4] from rfl,
        show slice2 [c1, c2, c3, c4, c5, c6, c7, c8] 0 = [c1, c2] from rfl]
    rw [hexVal2 c7 c8 d7 d8 hd7 hd8, hexVal2 c5 c6 d5 d6 hd5 hd6,
        hexVal2 c3 c4 d3 d4 hd3 hd4, hexVal2 c1 c2 d1 d2 hd1 hd2]
    rfl

theorem hex_ip_list32 (cs : List Char) (hlen : cs.length = 32) :
    hex_ip_to_decimal (String.mk cs) = .ok (ipv6_render_spec cs) := by
  obtain ⟨c1, cs, rfl, hk1⟩ := len_destruct cs 31 hlen
  obtain ⟨c2, cs, rfl, hk2⟩ := len_destruct cs 30 hk1
  obtain ⟨c3, cs, rfl, hk3⟩ := len_destruct cs 29 hk2
  obtain ⟨c4, cs, rfl, hk4⟩ := len_destruct cs 28 hk3
  obtain ⟨c5, cs, rfl, hk5⟩ := len_destruct cs 27 hk4
  obtain ⟨c6, cs, rfl, hk6⟩ := len_destruct cs 26 hk5
  obtain ⟨c7, cs, rfl, hk7⟩ := len_destruct cs 25 hk6
  obtain ⟨c8, cs, rfl, hk8⟩ := len_destruct cs 24 hk7
  obtain ⟨c9, cs, rfl, hk9⟩ := len_destruct cs 23 hk8
  obtain ⟨c10, cs, rfl, hk10⟩ := len_destruct cs 22 hk9
  obtain ⟨c11, cs, rfl, hk11⟩ := len_destruct cs 21 hk10
  obtain ⟨c12, cs, rfl, hk12⟩ := len_destruct cs 20 hk11
  obtain ⟨c13, cs, rfl, hk13⟩ := len_destruct cs 19 hk12
  obtain ⟨c14, cs, rfl, hk14⟩ := len_destruct cs 18 hk13
  obtain ⟨c15, cs, rfl, hk15⟩ := len_destruct cs 17 hk14
  obtain ⟨c16, cs, rfl, hk16⟩ := len_destruct cs 16 hk15
  obtain ⟨c17, cs, rfl, hk17⟩ := len_destruct cs 15 hk16
  obtain ⟨c18, cs, rfl, hk18⟩ := len_destruct cs 14 hk17
  obtain ⟨c19, cs, rfl, hk19⟩ := len_destruct cs 13 hk18
  obtain ⟨c20, cs, rfl, hk20⟩ := len_destruct cs 12 hk19
  obtain ⟨c21, cs, rfl, hk21⟩ := len_destruct cs 11 hk20
  obtain ⟨c22, cs, rfl, hk22⟩ := len_destruct cs 10 hk21
  obtain ⟨c23, cs, rfl, hk23⟩ := len_destruct cs 9 hk22
  obtain ⟨c24, cs, rfl, hk24⟩ := len_destruct cs 8 hk23
  obtain ⟨c25, cs, rfl, hk25⟩ := len_destruct cs 7 hk24
  obtain ⟨c26, cs, rfl, hk26⟩ := len_destruct cs 6 hk25
  obtain ⟨c27, cs, rfl, hk27⟩ := len_destruct cs 5 hk26
  obtain ⟨c28, cs, rfl, hk28⟩ := len_destruct cs 4 hk27
  obtain ⟨c29, cs, rfl, hk29⟩ := len_destruct cs 3 hk28
  obtain ⟨c30, cs, rfl, hk30⟩ := len_destruct cs 2 hk29
  obtain ⟨c31, cs, rfl, hk31⟩ := len_destruct cs 1 hk30
  obtain ⟨c32, cs, rfl, hk32⟩ := len_destruct cs 0 hk31
  have hnil : cs = [] := List.length_eq_zero.mp hk32
  subst hnil
  rfl

/-- C5: hex-to-address conversion matches the specification's byte-reversal
reading.  For every 8-hex-digit field, `hex_ip_to_decimal` returns exactly
the spec-side rendering (byte pairs read in reverse order become octets 1..4
in dotted decimal); for every 32-hex-digit field it returns exactly the
spec-side rendering (each 8-digit word byte-reversed, the eight 16-bit
groups joined with colons, lower case). -/
theorem c5_hex_ip_rendering (s : String) :
    (s.toList.length = 8 → (∀ c ∈ s.toList, (hexDigitVal c).isSome) →
      ∃ out, ipv4_render_spec s.toList = some out ∧
        hex_ip_to_decimal s = .ok out) ∧
    (s.toList.length = 32 → (∀ c ∈ s.toList, (hexDigitVal c).isSome) →
      hex_ip_to_decimal s = .ok (ipv6_render_spec s.toList)) := by
  obtain ⟨cs⟩ := s
  constructor
  · intro hlen hhex
    exact hex_ip_list8 cs hlen hhex
  · intro hlen _
    exact hex_ip_list32 cs hlen

/-- Witness for C5 at concrete inputs: the spec's own example `0100007F` →
`127.0.0.1`, and a 32-digit example. -/
theorem c5_hex_ip_rendering_witness :
    ("0100007F".toList.length = 8 ∧
      (∀ c ∈ "0100007F".toList, (hexDigitVal c).isSome)) ∧
    (∃ out, ipv4_render_spec "0100007F".toList = some out ∧
      hex_ip_to_decimal "0100007F" = .ok out) ∧
    hex_ip_to_decimal "0100007F" = .ok "127.0.0.1" ∧
    ("00000000000000000000000000000001".toList.length = 32 ∧
      (∀ c ∈ "00000000000000000000000000000001".toList, (hexDigitVal c).isSome)) ∧
    hex_ip_to_decimal "00000000000000000000000000000001" =
      .ok (ipv6_render_spec "00000000000000000000000000000001".toList) := by
  refine ⟨⟨by decide, by decide⟩, ?_, by decide, ⟨by decide, by decide⟩, ?_⟩
  · exact (c5_hex_ip_rendering "0100007F").1 (by decide) (by decide)
  · exact (c5_hex_ip_rendering "00000000000000000000000000000001").2
      (by decide) (by decide)

theorem mutConv_frame (store : Store) (r : Nat) (k : String)
    (f : Value → Except String Value) (store2 : Store)
    (h : mutConv store r k f = .ok store2) :
    store2.length = store.length ∧ ∀ i, ¬ i = r → store2.get? i = store.get? i := by
  unfold mutConv at h
  cases h1 : getKey (heapRead store r) k with
  | error err => rw [h1] at h; exact absurd h (by simp)
  | ok v =>
  rw [h1] at h
  try simp only [] at h
  cases h2 : f v with
  | error err => rw [h2] at h; exact absurd h (by simp)
  | ok v2 =>
  rw [h2] at h
  try simp only [] at h
  simp only [Except.ok.injEq] at h
  rw [← h]
  unfold heapWrite
  constructor
  · exact List.length_set store r _
  · intro i hir
    exact List.get?_set_ne _ _ (fun hh => hir hh.symm)

theorem post_one_heap_frame (store : Store) (r : Nat) (store2 : Store)
    (o : Option Nat) (h : post_one_heap store r = .ok (store2, o)) :
    store2.length = store.length + 1 ∧
    (∀ i, i < store.length → store2.get? i = store.get? i) ∧
    (o = none ∨ o = some store.length) := by
  unfold post_one_heap at h
  cases h1 : mutConv (store ++ [heapRead store r]) store.length "local_address"
      (fun v => (hexIpOfValue v).map Value.str) with
  | error err => rw [h1] at h; exact absurd h (by simp)
  | ok st1 =>
  rw [h1] at h
  try simp only [] at h
  cases h2 : mutConv st1 store.length "local_port"
      (fun v => (toHexNat v).map Value.num) with
  | error err => rw [h2] at h; exact absurd h (by simp)
  | ok st2 =>
  rw [h2] at h
  try simp only [] at h
  cases h3 : mutConv st2 store.length "rem_address"
      (fun v => (hexIpOfValue v).map Value.str) with
  | error err => rw [h3] at h; exact absurd h (by simp)
  | ok st3 =>
  rw [h3] at h
  try simp only [] at h
  cases h4 : mutConv st3 store.length "rem_port"
      (fun v => (toHexNat v).map Value.num) with
  | error err => rw [h4] at h; exact absurd h (by simp)
  | ok st4 =>
  rw [h4] at h
  try simp only [] at h
  have f0len : (store ++ [heapRead store r]).length = store.length + 1 := by
    simp
  have f0get : ∀ i, i < store.length →
      (store ++ [heapRead store r]).get? i = store.get? i := by
    intro i hi
    exact List.get?_append hi
  obtain ⟨len1, get1⟩ := mutConv_frame _ _ _ _ _ h1
  obtain ⟨len2, get2⟩ := mutConv_frame _ _ _ _ _ h2
  obtain ⟨len3, get3⟩ := mutConv_frame _ _ _ _ _ h3
  obtain ⟨len4, get4⟩ := mutConv_frame _ _ _ _ _ h4
  have hlen4 : st4.length = store.length + 1 := by
    rw [len4, len3, len2, len1, f0len]
  have hget4 : ∀ i, i < store.length → st4.get? i = store.get? i := by
    intro i hi
    have hne : ¬ i = store.length := Nat.ne_of_lt hi
    rw [get4 i hne, get3 i hne, get2 i hne, get1 i hne, f0get i hi]
  cases hp : getKey (heapRead st4 store.length) "proto" with
  | error err => rw [hp] at h; exact absurd h (by simp)
  | ok proto =>
  rw [hp] at h
  try simp only [] at h
  cases hr : getKey (heapRead st4 store.length) "rem_address" with
  | error err => rw [hr] at h; exact absurd h (by simp)
  | ok ra =>
  rw [hr] at h
  try simp only [] at h
  by_cases g1 : (proto = Value.str "tcp4" ∨ proto = Value.str "udp4") ∧
      ra = Value.str "0.0.0.0"
  · rw [if_pos g1] at h
    simp only [Except.ok.injEq, Prod.mk.injEq] at h
    exact ⟨h.1 ▸ hlen4, fun i hi => h.1 ▸ hget4 i hi, Or.inl h.2.symm⟩
  · rw [if_neg g1] at h
    by_cases g2 : (proto = Value.str "tcp6" ∨ proto = Value.str "udp6") ∧
        ra = Value.str zero6
    · rw [if_pos g2] at h
      simp only [Except.ok.injEq, Prod.mk.injEq] at h
      exact ⟨h.1 ▸ hlen4, fun i hi => h.1 ▸ hget4 i hi, Or.inl h.2.symm⟩
    · rw [if_neg g2] at h
      cases hs : getKey (heapRead st4 store.length) "st" with
      | error err => rw [hs] at h; exact absurd h (by simp)
      | ok sv =>
      rw [hs] at h
      try simp only [] at h
      cases hn : toHexNat sv with
      | error err => rw [hn] at h; exact absurd h (by simp)
      | ok state_id =>
      rw [hn] at h
      try simp only [] at h
      cases hst : stateOfId state_id with
      | error err => rw [hst] at h; exact absurd h (by simp)
      | ok state =>
      rw [hst] at h
      simp only [Except.ok.injEq, Prod.mk.injEq] at h
      refine ⟨?_, ?_, Or.inr h.2.symm⟩
      · rw [← h.1]
        unfold heapWrite
        rw [List.length_set, hlen4]
      · intro i hi
        rw [← h.1]
        unfold heapWrite
        rw [List.get?_set_ne _ _ (Nat.ne_of_lt hi).symm]
        exact hget4 i hi

theorem post_process_heap_frame (refs : List Nat) :
    ∀ (store store2 : Store) (out : List Nat),
      post_process_heap store refs = .ok (store2, out) →
      store.length ≤ store2.length ∧
      (∀ i, i < store.length → store2.get? i = store.get? i) ∧
      (∀ n ∈ out, store.length ≤ n ∧ n < store2.length) ∧
      out.Pairwise (· < ·) := by
  induction refs with
  | nil =>
    intro store store2 out h
    simp only [post_process_heap, Except.ok.injEq, Prod.mk.injEq] at h
    refine ⟨h.1 ▸ Nat.le_refl _, fun i _ => by rw [← h.1], ?_, ?_⟩
    · intro n hn
      rw [← h.2] at hn
      exact absurd hn (by simp)
    · rw [← h.2]
      exact List.Pairwise.nil
  | cons r rest ih =>
    intro store store2 out h
    simp only [post_process_heap] at h
    cases h1 : post_one_heap store r with
    | error err => rw [h1] at h; exact absurd h (by simp)
    | ok p1 =>
    obtain ⟨store1, o⟩ := p1
    rw [h1] at h
    try simp only [] at h
    cases h2 : post_process_heap store1 rest with
    | error err => rw [h2] at h; exact absurd h (by simp)
    | ok p2 =>
    obtain ⟨storeR, outs⟩ := p2
    rw [h2] at h
    try simp only [] at h
    obtain ⟨hlen1, hget1, ho⟩ := post_one_heap_frame store r store1 o h1
    obtain ⟨hlenR, hgetR, houtR, hpwR⟩ := ih store1 storeR outs h2
    have hlen : store.length ≤ storeR.length := by
      omega
    have hget : ∀ i, i < store.length → storeR.get? i = store.get? i := by
      intro i hi
      rw [hgetR i (by omega), hget1 i hi]
    rcases ho with rfl | rfl
    · simp only [Except.ok.injEq, Prod.mk.injEq] at h
      refine ⟨h.1 ▸ hlen, fun i hi => h.1 ▸ hget i hi, ?_, ?_⟩
      · intro n hn
        rw [← h.2] at hn
        have := houtR n hn
        constructor
        · omega
        · rw [← h.1]
          omega
      · rw [← h.2]
        exact hpwR
    · simp only [Except.ok.injEq, Prod.mk.injEq] at h
      refine ⟨h.1 ▸ hlen, fun i hi => h.1 ▸ hget i hi, ?_, ?_⟩
      · intro n hn
        rw [← h.2] at hn
        rcases List.mem_cons.mp hn with rfl | hn'
        · constructor
          · exact Nat.le_refl _
          · rw [← h.1]
            omega
        · have := houtR n hn'
          constructor
          · omega
          · rw [← h.1]
            omega
      · rw [← h.2]
        refine List.Pairwise.cons ?_ hpwR
        intro m hm
        have := houtR m hm
        omega

/-!
Correspondence of the heap model with the pure embedding: on a valid
reference the heap version performs exactly the pure per-entry computation
on a fresh copy, so the two embeddings of `post_process_connection_data`
agree.
-/

theorem heapRead_write_self (st : Store) (rn : Nat) (d : Dict) (h : rn < st.length) :
    heapRead (heapWrite st rn d) rn = d := by
  unfold heapRead heapWrite
  rw [List.get?_eq_getElem?, List.getElem?_set_eq_of_lt d h]
  rfl

theorem heapRead_append_self (st : Store) (d : Dict) :
    heapRead (st ++ [d]) st.length = d := by
  unfold heapRead
  rw [List.get?_concat_length]
  rfl

theorem mutConv_convAddr (st : Store) (rn : Nat) (k : String) :
    mutConv st rn k (fun v => (hexIpOfValue v).map .str) =
      (convAddr (heapRead st rn) k).map (fun d2 => heapWrite st rn d2) := by
  unfold mutConv convAddr
  cases h1 : getKey (heapRead st rn) k with
  | error err => rfl
  | ok v =>
    cases h2 : hexIpOfValue v with
    | error err => simp [h2, Except.map]
    | ok la => simp [h2, Except.map]

theorem mutConv_convPort (st : Store) (rn : Nat) (k : String) :
    mutConv st rn k (fun v => (toHexNat v).map .num) =
      (convPort (heapRead st rn) k).map (fun d2 => heapWrite st rn d2) := by
  unfold mutConv convPort
  cases h1 : getKey (heapRead st rn) k with
  | error err => rfl
  | ok v =>
    cases h2 : toHexNat v with
    | error err => simp [h2, Except.map]
    | ok n => simp [h2, Except.map]

theorem heap_step_addr (stp : Store) (rn : Nat) (k : String) (e e2 : Dict)
    (hrd : heapRead stp rn = e) (hlen : rn < stp.length)
    (hc : convAddr e k = .ok e2) :
    mutConv stp rn k (fun v => (hexIpOfValue v).map .str) = .ok (heapWrite stp rn e2) ∧
    heapRead (heapWrite stp rn e2) rn = e2 ∧ rn < (heapWrite stp rn e2).length := by
  refine ⟨?_, heapRead_write_self _ _ _ hlen, ?_⟩
  · rw [mutConv_convAddr, hrd, hc]
    rfl
  · unfold heapWrite
    rw [List.length_set]
    exact hlen

theorem heap_step_port (stp : Store) (rn : Nat) (k : String) (e e2 : Dict)
    (hrd : heapRead stp rn = e) (hlen : rn < stp.length)
    (hc : convPort e k = .ok e2) :
    mutConv stp rn k (fun v => (toHexNat v).map .num) = .ok (heapWrite stp rn e2) ∧
    heapRead (heapWrite stp rn e2) rn = e2 ∧ rn < (heapWrite stp rn e2).length := by
  refine ⟨?_, heapRead_write_self _ _ _ hlen, ?_⟩
  · rw [mutConv_convPort, hrd, hc]
    rfl
  · unfold heapWrite
    rw [List.length_set]
    exact hlen

theorem post_one_heap_of_pure (store : Store) (r : Nat) (out : Option Dict)
    (h : post_one (heapRead store r) = .ok out) :
    ∃ store2, post_one_heap store r = .ok (store2, out.map (fun _ => store.length)) ∧
      ∀ d, out = some d → heapRead store2 store.length = d := by
  unfold post_one at h
  unfold post_one_heap
  have hrd0 : heapRead (store ++ [heapRead store r]) store.length = heapRead store r :=
    heapRead_append_self store _
  have hlen0 : store.length < (store ++ [heapRead store r]).length := by simp
  cases h1 : convAddr (heapRead store r) "local_address" with
  | error err => rw [h1] at h; exact absurd h (by simp)
  | ok e1 =>
  rw [h1] at h
  try simp only [] at h
  obtain ⟨hm1, hrd1, hlen1⟩ := heap_step_addr _ _ _ _ _ hrd0 hlen0 h1
  rw [hm1]
  try simp only []
  cases h2 : convPort e1 "local_port" with
  | error err => rw [h2] at h; exact absurd h (by simp)
  | ok e2 =>
  rw [h2] at h
  try simp only [] at h
  obtain ⟨hm2, hrd2, hlen2⟩ := heap_step_port _ _ _ _ _ hrd1 hlen1 h2
  rw [hm2]
  try simp only []
  cases h3 : convAddr e2 "rem_address" with
  | error err => rw [h3] at h; exact absurd h (by simp)
  | ok e3 =>
  rw [h3] at h
  try simp only [] at h
  obtain ⟨hm3, hrd3, hlen3⟩ := heap_step_addr _ _ _ _ _ hrd2 hlen2 h3
  rw [hm3]
  try simp only []
  cases h4 : convPort e3 "rem_port" with
  | error err => rw [h4] at h; exact absurd h (by simp)
  | ok e4 =>
  rw [h4] at h
  try simp only [] at h
  obtain ⟨hm4, hrd4, hlen4⟩ := heap_step_port _ _ _ _ _ hrd3 hlen3 h4
  rw [hm4]
  try simp only []
  rw [hrd4]
  cases hp : getKey e4 "proto" with
  | error err => rw [hp] at h; exact absurd h (by simp)
  | ok proto =>
  rw [hp] at h
  try simp only [] at h
  cases hra : getKey e4 "rem_address" with
  | error err => rw [hra] at h; exact absurd h (by simp)
  | ok ra =>
  rw [hra] at h
  try simp only [] at h
  try simp only []
  by_cases g1 : (proto = Value.str "tcp4" ∨ proto = Value.str "udp4") ∧
      ra = Value.str "0.0.0.0"
  · rw [if_pos g1] at h
    rw [if_pos g1]
    simp only [Except.ok.injEq] at h
    rw [← h]
    exact ⟨_, rfl, fun d hd => absurd hd (by simp)⟩
  · rw [if_neg g1] at h
    rw [if_neg g1]
    by_cases g2 : (proto = Value.str "tcp6" ∨ proto = Value.str "udp6") ∧
        ra = Value.str zero6
    · rw [if_pos g2] at h
      rw [if_pos g2]
      simp only [Except.ok.injEq] at h
      rw [← h]
      exact ⟨_, rfl, fun d hd => absurd hd (by simp)⟩
    · rw [if_neg g2] at h
      rw [if_neg g2]
      cases hs : getKey e4 "st" with
      | error err => rw [hs] at h; exact absurd h (by simp)
      | ok sv =>
      rw [hs] at h
      try simp only []
      try simp only [] at h
      cases hn : toHexNat sv with
      | error err => rw [hn] at h; exact absurd h (by simp)
      | ok state_id =>
      rw [hn] at h
      try simp only []
      try simp only [] at h
      cases hst : stateOfId state_id with
      | error err => rw [hst] at h; exact absurd h (by simp)
      | ok state =>
      rw [hst] at h
      try simp only []
      simp only [Except.ok.injEq] at h
      rw [← h]
      refine ⟨_, rfl, ?_⟩
      intro d hd
      simp only [Option.some.injEq] at hd
      rw [← hd]
      exact heapRead_write_self _ _ _ hlen4

theorem post_process_heap_of_pure (refs : List Nat) :
    ∀ (store : Store), (∀ r ∈ refs, r < store.length) →
      ∀ out, post_process_connection_data (refs.map (heapRead store)) = .ok out →
        ∃ store2 outs, post_process_heap store refs = .ok (store2, outs) ∧
          outs.map (heapRead store2) = out := by
  induction refs with
  | nil =>
    intro store _ out h
    simp only [List.map_nil, post_process_connection_data, Except.ok.injEq] at h
    exact ⟨store, [], rfl, by rw [← h]; rfl⟩
  | cons r rest ih =>
    intro store hvalid out h
    simp only [List.map_cons, post_process_connection_data] at h
    cases h1 : post_one (heapRead store r) with
    | error err => rw [h1] at h; exact absurd h (by simp)
    | ok o =>
    rw [h1] at h
    try simp only [] at h
    obtain ⟨store1, hheap1, hval1⟩ := post_one_heap_of_pure store r o h1
    obtain ⟨hlen1, hget1, -⟩ := post_one_heap_frame store r store1 _ hheap1
    have hsame : rest.map (heapRead store1) = rest.map (heapRead store) := by
      apply List.map_congr_left
      intro r2 hr2
      unfold heapRead
      rw [hget1 r2 (hvalid r2 (List.mem_cons_of_mem _ hr2))]
    cases h2 : post_process_connection_data (rest.map (heapRead store)) with
    | error err => rw [h2] at h; exact absurd h (by simp)
    | ok rest2 =>
    rw [h2] at h
    try simp only [] at h
    have hvalid1 : ∀ r2 ∈ rest, r2 < store1.length := by
      intro r2 hr2
      have := hvalid r2 (List.mem_cons_of_mem _ hr2)
      omega
    obtain ⟨store2, outs, hheapR, hvalR⟩ :=
      ih store1 hvalid1 rest2 (by rw [hsame]; exact h2)
    obtain ⟨hlenR, hgetR, -, -⟩ := post_process_heap_frame rest store1 store2 outs hheapR
    cases o with
    | none =>
      simp only [Except.ok.injEq] at h
      refine ⟨store2, outs, ?_, ?_⟩
      · simp only [post_process_heap]
        rw [hheap1]
        try simp only []
        rw [hheapR]
        simp
      · rw [hvalR, ← h]
    | some d =>
      simp only [Except.ok.injEq] at h
      refine ⟨store2, store.length :: outs, ?_, ?_⟩
      · simp only [post_process_heap]
        rw [hheap1]
        try simp only []
        rw [hheapR]
        simp
      · rw [List.map_cons, hvalR, ← h]
        have hd : heapRead store1 store.length = d := hval1 d rfl
        have hd2 : heapRead store2 store.length = d := by
          unfold heapRead at hd ⊢
          rw [hgetR store.length (by omega)]
          exact hd
        rw [hd2]

/-- C10 (frame): `post_process_connection_data` is pure with respect to its
input.  In the explicit object-store model, a call on valid references
leaves every pre-existing object (in particular every input dict and all
its fields) exactly as it was, and every returned reference is a fresh,
pairwise-distinct object allocated by the call — the new list of newly
copied record dicts (`entry = dict(e)`); dropped or transformed entries
only ever mutate those fresh copies.  Moreover the values stored at the
returned references are exactly the output of the pure
`post_process_connection_data` on the dereferenced input. -/
theorem c10_post_process_pure_frame (store : Store) (refs : List Nat)
    (store2 : Store) (out : List Nat)
    (hvalid : ∀ r ∈ refs, r < store.length)
    (h : post_process_heap store refs = .ok (store2, out)) :
    (∀ i, i < store.length → store2.get? i = store.get? i) ∧
    (∀ n ∈ out, store.length ≤ n ∧ n < store2.length) ∧
    out.Pairwise (· < ·) ∧
    (∀ n ∈ out, ∀ r ∈ refs, ¬ n = r) ∧
    (∀ pureOut,
      post_process_connection_data (refs.map (heapRead store)) = .ok pureOut →
      out.map (heapRead store2) = pureOut) := by
  obtain ⟨-, hget, hout, hpw⟩ := post_process_heap_frame refs store store2 out h
  refine ⟨hget, hout, hpw, ?_, ?_⟩
  · intro n hn r hr hc
    have h1 := (hout n hn).1
    have h2 := hvalid r hr
    omega
  · intro pureOut hpure
    obtain ⟨store2b, outsb, hheap, hmap⟩ :=
      post_process_heap_of_pure refs store hvalid pureOut hpure
    rw [h] at hheap
    simp only [Except.ok.injEq, Prod.mk.injEq] at hheap
    rw [← hmap, hheap.1, hheap.2]

/-- Witness for C10 at a concrete input: one stored record, one valid
reference. -/
theorem c10_post_process_pure_frame_witness :
    (∀ r ∈ [0], r < [testRecord "01"].length) ∧
    post_process_heap [testRecord "01"] [0] =
      .ok ([testRecord "01", testOutput "ESTABLISHED"], [1]) ∧
    ((∀ i, i < [testRecord "01"].length →
        [testRecord "01", testOutput "ESTABLISHED"].get? i = [testRecord "01"].get? i) ∧
     (∀ n ∈ [1], [testRecord "01"].length ≤ n ∧
        n < [testRecord "01", testOutput "ESTABLISHED"].length) ∧
     ([1] : List Nat).Pairwise (· < ·) ∧
     (∀ n ∈ [1], ∀ r ∈ [0], ¬ n = r) ∧
     (∀ pureOut,
        post_process_connection_data (([0] : List Nat).map (heapRead [testRecord "01"])) =
          .ok pureOut →
        ([1] : List Nat).map (heapRead [testRecord "01", testOutput "ESTABLISHED"]) =
          pureOut)) := by
  refine ⟨by decide, by decide, ?_⟩
  exact c10_post_process_pure_frame [testRecord "01"] [0]
    [testRecord "01", testOutput "ESTABLISHED"] [1] (by decide) (by decide)
